import Mathlib

/-!
# GNU Mcron: the C wrapper `mcron.c`

A shallow embedding of `src/mcron.c` and a verification of its signal
protocol and bootstrap sequence.

The four C functions of the file (`react_to_terminal_signal`,
`set_cron_signals`, `inner_main`, `main`) are Lean functions of the same
names in a state-and-control monad `M` over an explicit `World`: the process
environment, the kernel's signal disposition table, the static
`struct sigaction sa`, the Guile module and primitive tables, and the ordered
trace of calls the program makes to libc and libguile.

Everything outside the file is an explicit parameter:

* the kernel (`Kernel`): which signal numbers `sigaction` refuses, and which
  signals terminate the process under `SIG_DFL`;
* the embedded Guile side (`Guile`, `Script`): whether a module resolves and
  what evaluating an expression does as seen from C: primitives it calls,
  signals delivered while it runs, errors it raises and catches;
* the build-time constant `GUILE_LOAD_PATH`.
-/

namespace Mcron

set_option linter.unusedVariables false

/-! ## Constants of `<signal.h>` (Linux numbering) and of `<libguile.h>` -/

def SIGHUP : Int := 1
def SIGINT : Int := 2
def SIGQUIT : Int := 3
def SIGKILL : Int := 9
def SIGTERM : Int := 15
def SIGCHLD : Int := 17
def SIGCONT : Int := 18
def SIGSTOP : Int := 19
def SIGTSTP : Int := 20
def SIGTTIN : Int := 21
def SIGTTOU : Int := 22
def SIGURG : Int := 23
def SIGWINCH : Int := 28
def NSIG : Int := 65

/-- Guile values as far as the wrapper can tell them apart. -/
inductive SCM where
  | bool (b : Bool)
  | unspecified
  | datum (n : Nat)
  deriving DecidableEq, Repr

def SCM_BOOL_T : SCM := SCM.bool true

/-- The values a `sa_handler` field can hold in this process: the two special
dispositions, the one handler function `mcron.c` defines, or a handler that
belongs to some other code (address `addr`). -/
inductive Handler where
  | SIG_DFL
  | SIG_IGN
  | react_to_terminal_signal
  | foreign (addr : Nat)
  deriving DecidableEq, Repr

/-- The fields of `struct sigaction` the program can observe. -/
structure struct_sigaction where
  sa_handler : Handler
  sa_mask : List Int
  sa_flags : Int
  deriving DecidableEq, Repr

/-- What `memset (&sa, 0, sizeof (sa))` leaves in a `struct sigaction`:
the null handler is `SIG_DFL`, the mask is empty, no flag is set. -/
def struct_sigaction.zero : struct_sigaction :=
  { sa_handler := Handler.SIG_DFL, sa_mask := [], sa_flags := 0 }

/-- The C functions of `mcron.c` that are handed to Guile as primitives. -/
inductive CFun where
  | set_cron_signals
  deriving DecidableEq, Repr

/-- One entry of Guile's table of C primitives, as `scm_c_define_gsubr`
creates it. -/
structure Gsubr where
  name : String
  req : Nat
  opt : Nat
  rst : Nat
  fn : CFun
  deriving DecidableEq, Repr

/-- The calls the program makes to libc and libguile, in order. -/
inductive Event where
  | setenv (name value : String) (overwrite : Int)
  | scm_boot_guile (argv : List String) (load_path : Option String)
  | scm_set_current_module (name : String)
  | scm_c_define_gsubr (name : String) (req opt rst : Nat) (fn : CFun)
  | scm_c_eval_string (expr : String)
  | gsubr_call (fn : CFun)
  | sigaction (sig : Int) (act : struct_sigaction) (rc : Int)
  | exit (status : Int)
  deriving DecidableEq, Repr

/-- Process state visible to `mcron.c`. -/
structure World where
  /-- the environment (`getenv`) -/
  environ : String → Option String
  /-- the kernel's disposition of every signal number -/
  sigtable : Int → struct_sigaction
  /-- the `static struct sigaction sa` of `set_cron_signals` -/
  sa : struct_sigaction
  /-- Guile's current module, once one was selected -/
  current_module : Option String
  /-- Guile's table of C primitives -/
  gsubrs : List Gsubr
  /-- the calls made so far, oldest first -/
  trace : List Event

/-- How a piece of C code ends: it returns a value, the process exits with a
status, a Guile error leaves it by a non-local exit, or the kernel kills the
process with a signal. -/
inductive Ctl (α : Type) where
  | ret (a : α)
  | exit (status : Int)
  | throw
  | killed (sig : Int)
  deriving DecidableEq, Repr

/-- Code that acts on the world and ends in one of the four ways of `Ctl`. -/
def M (α : Type) : Type := World → Ctl α × World

def M.pure {α : Type} (a : α) : M α := fun w => (Ctl.ret a, w)

/-- Sequencing of C statements: everything but a normal return skips the rest. -/
def M.bind {α β : Type} (m : M α) (f : α → M β) : M β := fun w =>
  match m w with
  | (Ctl.ret a, w1) => f a w1
  | (Ctl.exit n, w1) => (Ctl.exit n, w1)
  | (Ctl.throw, w1) => (Ctl.throw, w1)
  | (Ctl.killed s, w1) => (Ctl.killed s, w1)

instance : Monad M where
  pure := M.pure
  bind := M.bind

/-- Appends one call to the trace. -/
def log (e : Event) : M Unit := fun w =>
  (Ctl.ret (), { w with trace := w.trace ++ [e] })

/-- A Guile error: control leaves the C code by a non-local exit. -/
def scm_throw {α : Type} : M α := fun w => (Ctl.throw, w)

/-! ## The kernel and libc -/

/-- The parts of the kernel the program depends on. -/
structure Kernel where
  /-- signal numbers for which `sigaction` fails (with `EINVAL`) -/
  refuses : Int → Bool
  /-- signals whose default action ends the process -/
  default_terminates : Int → Bool

/-- Linux: `sigaction` refuses invalid numbers, `SIGKILL` and `SIGSTOP`; the
default action ends the process except for the job-control and
notification signals. -/
def linux : Kernel where
  refuses := fun sig => decide (sig < 1) || decide (NSIG ≤ sig)
    || decide (sig = SIGKILL) || decide (sig = SIGSTOP)
  default_terminates := fun sig => decide (1 ≤ sig) && decide (sig < NSIG)
    && !(decide (sig = SIGCHLD) || decide (sig = SIGCONT) || decide (sig = SIGSTOP)
      || decide (sig = SIGTSTP) || decide (sig = SIGTTIN) || decide (sig = SIGTTOU)
      || decide (sig = SIGURG) || decide (sig = SIGWINCH))

/-- The libc call `exit (status)`: the process ends, nothing after it runs. -/
def exit {α : Type} (status : Int) : M α := fun w =>
  (Ctl.exit status, { w with trace := w.trace ++ [Event.exit status] })

/-- The libc call `setenv (name, value, overwrite)`: an existing variable is kept
when `overwrite` is zero, otherwise the variable is set to `value`. -/
def setenv (name value : String) (overwrite : Int) : M Int := fun w =>
  let w1 := { w with trace := w.trace ++ [Event.setenv name value overwrite] }
  if (w.environ name).isSome && decide (overwrite = 0) then
    (Ctl.ret 0, w1)
  else
    (Ctl.ret 0, { w1 with environ := fun n => if n = name then some value else w.environ n })

/-- The call `sigaction (sig, &sa, 0)`: installs the contents of the static `sa` as the
disposition of `sig` and returns 0, or changes nothing and returns -1 when
the kernel refuses the signal number. -/
def sigaction (K : Kernel) (sig : Int) : M Int := fun w =>
  if K.refuses sig then
    (Ctl.ret (-1), { w with trace := w.trace ++ [Event.sigaction sig w.sa (-1)] })
  else
    (Ctl.ret 0, { w with
      sigtable := fun s => if s = sig then w.sa else w.sigtable s,
      trace := w.trace ++ [Event.sigaction sig w.sa 0] })

/-- The statement `memset (&sa, 0, sizeof (sa))` on the static `sa`. -/
def memset_sa : M Unit := fun w => (Ctl.ret (), { w with sa := struct_sigaction.zero })

/-- The assignment `sa.sa_handler = h` on the static `sa`. -/
def assign_sa_handler (h : Handler) : M Unit := fun w =>
  (Ctl.ret (), { w with sa := { w.sa with sa_handler := h } })

/-! ## `mcron.c` -/

/-- The signal handler, lines 63-68.  `scm_c_eval_string` is libguile's
evaluator in the context the signal interrupted. -/
def react_to_terminal_signal (scm_c_eval_string : String → M SCM) (signal : Int) : M Unit := do
  let _ ← scm_c_eval_string "(delete-run-file)"
  exit 1

/-- The installer, lines 77-90. -/
def set_cron_signals (K : Kernel) : M SCM := do
  memset_sa
  assign_sa_handler Handler.react_to_terminal_signal
  let _ ← sigaction K SIGTERM
  let _ ← sigaction K SIGINT
  let _ ← sigaction K SIGQUIT
  let _ ← sigaction K SIGHUP
  return SCM_BOOL_T

/-! ## The embedded side, as seen from C -/

/-- What an evaluation of embedded code does, as far as `mcron.c` is
concerned.  The kernel's asynchronous deliveries are part of it: a signal
arrives between two actions of the embedded code. -/
inductive Script where
  /-- the evaluation returns `v` -/
  | ret (v : SCM)
  /-- the evaluation raises an error -/
  | raise
  /-- embedded code calls the primitive bound to `name` with `nargs`
  arguments, then goes on as `k` -/
  | call (name : String) (nargs : Nat) (k : Script)
  /-- the kernel delivers `sig`; should a handler evaluate embedded code, that
  evaluation behaves as `cb`; the interrupted code resumes as `k` -/
  | signal (sig : Int) (cb : Script) (k : Script)
  /-- the form `(catch #t body recover)`: an error raised in `body` is caught
  and the evaluation goes on as `recover` -/
  | catch_ (body : Script) (recover : Script)
  deriving DecidableEq, Repr

/-- Runs a registered C primitive. -/
def CFun.run (K : Kernel) : CFun → M SCM
  | CFun.set_cron_signals => Mcron.set_cron_signals K

/-- Guile applies the primitive `g` to `nargs` arguments: a wrong number of
arguments is an error, otherwise the C function runs. -/
def Gsubr.apply (K : Kernel) (g : Gsubr) (nargs : Nat) : M SCM :=
  if nargs < g.req ∨ (g.rst = 0 ∧ g.req + g.opt < nargs) then
    scm_throw
  else do
    log (Event.gsubr_call g.fn)
    g.fn.run K

/-- Embedded code calls `name`: an unbound name is an error. -/
def call_gsubr (K : Kernel) (name : String) (nargs : Nat) : M SCM := fun w =>
  match w.gsubrs.find? (fun g => g.name == name) with
  | some g => g.apply K nargs w
  | none => (Ctl.throw, w)

/-- The kernel delivers `sig`: the default action, nothing, or the
installed handler, which runs on top of the interrupted code.  A handler of
other code is outside `mcron.c`; it is taken to return. -/
def deliver (K : Kernel) (scm_c_eval_string : String → M SCM) (sig : Int) : M Unit := fun w =>
  match (w.sigtable sig).sa_handler with
  | Handler.SIG_DFL => if K.default_terminates sig then (Ctl.killed sig, w) else (Ctl.ret (), w)
  | Handler.SIG_IGN => (Ctl.ret (), w)
  | Handler.react_to_terminal_signal => react_to_terminal_signal scm_c_eval_string sig w
  | Handler.foreign _ => (Ctl.ret (), w)

/-- The libguile call `scm_c_eval_string (expr)`, given what the evaluation does. -/
def eval_as (body : M SCM) (expr : String) : M SCM := do
  log (Event.scm_c_eval_string expr)
  body

/-- The behaviour of an evaluation. -/
def Script.run (K : Kernel) : Script → M SCM
  | Script.ret v => pure v
  | Script.raise => scm_throw
  | Script.call name nargs k => do
      let _ ← call_gsubr K name nargs
      Script.run K k
  | Script.signal sig cb k => do
      deliver K (eval_as (Script.run K cb)) sig
      Script.run K k
  | Script.catch_ body recover => fun w =>
      match Script.run K body w with
      | (Ctl.throw, w1) => Script.run K recover w1
      | r => r

/-- The embedded Scheduler Engine: which modules resolve, and what
evaluating an expression at top level does. -/
structure Guile where
  resolvable : String → Bool
  behaviour : String → Script

/-- The libguile call `scm_c_eval_string (expr)` at top level. -/
def scm_c_eval_string (K : Kernel) (G : Guile) (expr : String) : M SCM :=
  eval_as (Script.run K (G.behaviour expr)) expr

/-- The libguile call `scm_c_resolve_module (name)`: the module, or an error. -/
def scm_c_resolve_module (G : Guile) (name : String) : M String :=
  if G.resolvable name then pure name else scm_throw

/-- The libguile call `scm_set_current_module (module)`. -/
def scm_set_current_module (module : String) : M Unit := fun w =>
  (Ctl.ret (), { w with current_module := some module,
                        trace := w.trace ++ [Event.scm_set_current_module module] })

/-- The libguile call `scm_c_define_gsubr (name, req, opt, rst, fn)`: binds `name` to the
primitive, shadowing an earlier binding of the name. -/
def scm_c_define_gsubr (name : String) (req opt rst : Nat) (fn : CFun) : M Unit := fun w =>
  (Ctl.ret (), { w with
    gsubrs := { name := name, req := req, opt := opt, rst := rst, fn := fn } :: w.gsubrs,
    trace := w.trace ++ [Event.scm_c_define_gsubr name req opt rst fn] })

/-- The libguile call `scm_boot_guile (argc, argv, main_func, closure)`: starts
Guile, which reads `GUILE_LOAD_PATH` from the environment, calls `main_func`,
and when that returns calls `exit (0)`; it does not return. -/
def scm_boot_guile (argv : List String) (main_func : Unit → List String → M Unit)
    (closure : Unit) : M Unit := do
  let lp ← (fun w => (Ctl.ret (w.environ "GUILE_LOAD_PATH"), w) : M (Option String))
  log (Event.scm_boot_guile argv lp)
  main_func closure argv
  exit 0

/-- Launches the Guile main program, lines 96-102. -/
def inner_main (K : Kernel) (G : Guile) (closure : Unit) (argv : List String) : M Unit := do
  let module ← scm_c_resolve_module G "mcron main"
  scm_set_current_module module
  scm_c_define_gsubr "c-set-cron-signals" 0 0 0 CFun.set_cron_signals
  let _ ← scm_c_eval_string K G "(main)"
  return ()

/-- The real main function, lines 108-115.  `GUILE_LOAD_PATH` is the
build-time constant of that name. -/
def main (K : Kernel) (G : Guile) (GUILE_LOAD_PATH : String) (argv : List String) : M Int := do
  let _ ← setenv "GUILE_LOAD_PATH" GUILE_LOAD_PATH 1
  scm_boot_guile argv (inner_main K G) ()
  return 0

/-- The exit status of the process, when it ends by `exit` or by returning
from `main`. -/
def exit_status : Ctl Int → Option Int
  | Ctl.ret n => some n
  | Ctl.exit n => some n
  | Ctl.throw => none
  | Ctl.killed _ => none

/-- The world of a freshly executed process: the inherited environment, every
signal at its default disposition or ignored (`execve` resets caught signals),
nothing done yet. -/
def process_start (environ : String → Option String) (ignored : Int → Bool) : World where
  environ := environ
  sigtable := fun s =>
    { sa_handler := if ignored s then Handler.SIG_IGN else Handler.SIG_DFL,
      sa_mask := [], sa_flags := 0 }
  sa := struct_sigaction.zero
  current_module := none
  gsubrs := []
  trace := []

/-! ## Vocabulary of the properties -/

/-- The signals `set_cron_signals` passes to `sigaction`. -/
def watched_signals : List Int := [SIGTERM, SIGINT, SIGQUIT, SIGHUP]

/-- The disposition `set_cron_signals` installs: the shared handler, no
flag, empty mask. -/
def cron_action : struct_sigaction :=
  { sa_handler := Handler.react_to_terminal_signal, sa_mask := [], sa_flags := 0 }

/-- Forgets the returned value. -/
def Ctl.void {α : Type} : Ctl α → Ctl Unit
  | Ctl.ret _ => Ctl.ret ()
  | Ctl.exit n => Ctl.exit n
  | Ctl.throw => Ctl.throw
  | Ctl.killed s => Ctl.killed s

/-- Is the event a call of `sigaction`? -/
def Event.is_sigaction : Event → Bool
  | Event.sigaction _ _ _ => true
  | _ => false

/-- Is the event one that only an evaluation of embedded code brings about:
a primitive entered, a `sigaction` call inside it, a nested evaluation, an
`exit`? -/
def Event.from_evaluation : Event → Bool
  | Event.gsubr_call _ => true
  | Event.sigaction _ _ _ => true
  | Event.scm_c_eval_string _ => true
  | Event.exit _ => true
  | _ => false

/-- Is the event part of an installation: embedded code entering a
primitive, or a `sigaction` call? -/
def Event.from_installer : Event → Bool
  | Event.gsubr_call _ => true
  | Event.sigaction _ _ _ => true
  | _ => false

/-- Is the event free of handler activity: neither a `sigaction` call, nor the
cleanup evaluation, nor `exit (1)`? -/
def Event.quiet (e : Event) : Bool :=
  !(Event.is_sigaction e || decide (e = Event.scm_c_eval_string "(delete-run-file)")
    || decide (e = Event.exit 1))

/-- Is every event of the trace that comes before embedded code first enters
the installer free of handler activity? -/
def quiet_until_installer : List Event → Bool
  | [] => true
  | e :: tr =>
      decide (e = Event.gsubr_call CFun.set_cron_signals) ||
        (Event.quiet e && quiet_until_installer tr)

/-- Number of `sigaction` calls in a trace. -/
def sigaction_calls (tr : List Event) : Nat := tr.countP Event.is_sigaction

/-- Number of times embedded code entered `set_cron_signals`. -/
def installer_calls (tr : List Event) : Nat :=
  tr.countP (fun e => decide (e = Event.gsubr_call CFun.set_cron_signals))

/-- Number of `scm_c_define_gsubr` calls in a trace. -/
def gsubr_definitions (tr : List Event) : Nat :=
  tr.countP (fun e => match e with
    | Event.scm_c_define_gsubr _ _ _ _ _ => true
    | _ => false)

/-- Does the evaluation, anywhere in it, call the primitive `name`? -/
def Script.calls (name : String) : Script → Bool
  | Script.ret _ => false
  | Script.raise => false
  | Script.call n _ k => n == name || Script.calls name k
  | Script.signal _ cb k => Script.calls name cb || Script.calls name k
  | Script.catch_ body recover => Script.calls name body || Script.calls name recover

/-- Is a signal of `sigs` delivered anywhere in the evaluation? -/
def Script.delivers (sigs : List Int) : Script → Bool
  | Script.ret _ => false
  | Script.raise => false
  | Script.call _ _ k => Script.delivers sigs k
  | Script.signal sig cb k =>
      sigs.contains sig || Script.delivers sigs cb || Script.delivers sigs k
  | Script.catch_ body recover => Script.delivers sigs body || Script.delivers sigs recover

/-- The world in which libguile calls `main_func`, when `main` started in `w`. -/
def world_at_boot (GUILE_LOAD_PATH : String) (argv : List String) (w : World) : World :=
  let w1 := (setenv "GUILE_LOAD_PATH" GUILE_LOAD_PATH 1 w).2
  { w1 with trace := w1.trace ++ [Event.scm_boot_guile argv (w1.environ "GUILE_LOAD_PATH")] }

/-- The world in which the evaluation of `"(main)"` starts, when `inner_main`
started in `w` and the module resolved. -/
def world_at_entry (w : World) : World :=
  { w with
    current_module := some "mcron main",
    gsubrs := { name := "c-set-cron-signals", req := 0, opt := 0, rst := 0,
                fn := CFun.set_cron_signals } :: w.gsubrs,
    trace := w.trace ++ [Event.scm_set_current_module "mcron main",
      Event.scm_c_define_gsubr "c-set-cron-signals" 0 0 0 CFun.set_cron_signals,
      Event.scm_c_eval_string "(main)"] }

/-! ### The Signal Coordinator as a transition system -/

/-- The states of the Signal Coordinator. -/
inductive Phase where
  | Uninstalled
  | Installed
  | Terminating
  deriving DecidableEq, Repr

/-- The four watched signals. -/
inductive WatchedSignal where
  | TERM
  | INT
  | QUIT
  | HUP
  deriving DecidableEq, Repr

def WatchedSignal.signo : WatchedSignal → Int
  | WatchedSignal.TERM => SIGTERM
  | WatchedSignal.INT => SIGINT
  | WatchedSignal.QUIT => SIGQUIT
  | WatchedSignal.HUP => SIGHUP

/-- The steps of the Signal Coordinator: embedded code calls the installer,
or the kernel delivers a watched signal while embedded code runs.  Should the
handler run, its cleanup evaluation behaves as `cb`; `caught` tells whether
the interrupted code runs inside a `catch`. -/
inductive Step where
  | install
  | deliver (s : WatchedSignal) (cb : Script) (caught : Bool)
  deriving DecidableEq, Repr

/-- A process: how its code has ended, if it has, and its world. -/
abbrev Proc : Type := Ctl Unit × World

/-- The embedded code a delivery step interrupts: the signal arrives in it,
inside a `catch` or not, and it goes on when the delivery returns to it. -/
def interrupted (s : WatchedSignal) (cb : Script) (caught : Bool) : Script :=
  if caught then
    Script.catch_ (Script.signal s.signo cb (Script.ret SCM.unspecified))
      (Script.ret SCM.unspecified)
  else
    Script.signal s.signo cb (Script.ret SCM.unspecified)

/-- One step of a process: only a process that is still running takes one.
The installer step runs `set_cron_signals`, the delivery step runs the
interrupted embedded code with the signal arriving in it. -/
def step (K : Kernel) (l : Step) (p : Proc) : Option Proc :=
  match p.1, l with
  | Ctl.ret _, Step.install =>
      some ((set_cron_signals K p.2).1.void, (set_cron_signals K p.2).2)
  | Ctl.ret _, Step.deliver s cb caught =>
      some ((Script.run K (interrupted s cb caught) p.2).1.void,
            (Script.run K (interrupted s cb caught) p.2).2)
  | _, _ => none

/-- A sequence of steps. -/
def steps (K : Kernel) : List Step → Proc → Option Proc
  | [], p => some p
  | l :: ls, p =>
      match step K l p with
      | some q => steps K ls q
      | none => none

/-- Do all four watched signals have the shared handler? -/
def installed (w : World) : Bool :=
  watched_signals.all (fun s => decide ((w.sigtable s).sa_handler = Handler.react_to_terminal_signal))

/-- The state of the Signal Coordinator in a process: a running process is
`Installed` or `Uninstalled` by its signal table, a process that called `exit`
is `Terminating`; a process killed by a signal or unwinding from an error is
in none of the three. -/
def phase (p : Proc) : Option Phase :=
  match p.1 with
  | Ctl.ret _ => some (if installed p.2 then Phase.Installed else Phase.Uninstalled)
  | Ctl.exit _ => some Phase.Terminating
  | Ctl.throw => none
  | Ctl.killed _ => none

/-- What an evaluation leaves alone: the environment, the primitive table and
the current module; to the trace it only appends, and only events of an
evaluation. -/
def Frame (w w1 : World) : Prop :=
  w1.environ = w.environ ∧ w1.gsubrs = w.gsubrs ∧ w1.current_module = w.current_module ∧
    ∃ rest, w1.trace = w.trace ++ rest ∧ ∀ e ∈ rest, Event.from_evaluation e = true

/-- The trace of `w1` is the trace of `w` followed by installation events only:
no evaluation and no `exit` in between. -/
def OnlyInstalls (w w1 : World) : Prop :=
  ∃ rest, w1.trace = w.trace ++ rest ∧ ∀ e ∈ rest, Event.from_installer e = true

/-- The shared handler is the disposition of watched signals only. -/
def HandlerOnlyOnWatched (w : World) : Prop :=
  ∀ s, (w.sigtable s).sa_handler = Handler.react_to_terminal_signal → s ∈ watched_signals

/-- Up to the first entry of embedded code into the installer the trace shows
no handler activity and the signal table is still `t0`. -/
def UntouchedUntilInstaller (t0 : Int → struct_sigaction) (w : World) : Prop :=
  quiet_until_installer w.trace = true ∧ (installer_calls w.trace = 0 → w.sigtable = t0)

/-- Between `w` and `w1` there were four `sigaction` calls for each entry of
embedded code into the installer, and no others. -/
def Balanced (w w1 : World) : Prop :=
  sigaction_calls w1.trace + 4 * installer_calls w.trace =
    sigaction_calls w.trace + 4 * installer_calls w1.trace

/-! ### Example embedded programs -/

/-- An embedded program whose `(main)` returns at once: it installs nothing. -/
def guile_idle : Guile where
  resolvable := fun _ => true
  behaviour := fun _ => Script.ret SCM.unspecified

/-- An embedded program whose `(main)` calls the installer twice and returns. -/
def guile_installing_twice : Guile where
  resolvable := fun _ => true
  behaviour := fun _ =>
    Script.call "c-set-cron-signals" 0
      (Script.call "c-set-cron-signals" 0 (Script.ret SCM.unspecified))

/-- An embedded program whose `(main)` installs the handler and then receives
SIGTERM; the cleanup evaluation returns. -/
def guile_cron : Guile where
  resolvable := fun _ => true
  behaviour := fun _ =>
    Script.call "c-set-cron-signals" 0
      (Script.signal SIGTERM (Script.ret SCM.unspecified) (Script.ret SCM.unspecified))

/-- An embedded program whose `(main)` installs the handler and then runs its
loop inside a `catch`; SIGTERM arrives in the loop and the cleanup evaluation
raises an error, which the `catch` handles; `(main)` then returns. -/
def guile_catching : Guile where
  resolvable := fun _ => true
  behaviour := fun _ =>
    Script.call "c-set-cron-signals" 0
      (Script.catch_
        (Script.signal SIGTERM Script.raise (Script.ret SCM.unspecified))
        (Script.ret SCM.unspecified))

/-- An embedded program whose `(main)` receives SIGHUP and then SIGINT without
having installed anything. -/
def guile_uninstalled : Guile where
  resolvable := fun _ => true
  behaviour := fun _ =>
    Script.signal SIGHUP (Script.ret SCM.unspecified)
      (Script.signal SIGINT (Script.ret SCM.unspecified) (Script.ret SCM.unspecified))

/-- A fresh process with an empty environment in which SIGHUP is ignored
(as under `nohup`). -/
def fresh : World :=
  process_start (fun _ => none) (fun s => decide (s = SIGHUP))

/-! ## Basic facts -/

@[simp]
theorem bind_apply {α β : Type} (m : M α) (f : α → M β) (w : World) :
    (m >>= f) w = (match m w with
      | (Ctl.ret a, w1) => f a w1
      | (Ctl.exit n, w1) => (Ctl.exit n, w1)
      | (Ctl.throw, w1) => (Ctl.throw, w1)
      | (Ctl.killed s, w1) => (Ctl.killed s, w1)) := rfl

@[simp]
theorem pure_apply {α : Type} (a : α) (w : World) :
    (pure a : M α) w = (Ctl.ret a, w) := rfl

@[simp]
theorem log_apply (e : Event) (w : World) :
    log e w = (Ctl.ret (), { w with trace := w.trace ++ [e] }) := rfl

@[simp]
theorem exit_apply {α : Type} (n : Int) (w : World) :
    (exit n : M α) w = (Ctl.exit n, { w with trace := w.trace ++ [Event.exit n] }) := rfl

@[simp]
theorem scm_throw_apply {α : Type} (w : World) :
    (scm_throw : M α) w = (Ctl.throw, w) := rfl

/-- The installer in closed form: it returns `SCM_BOOL_T`, and the world it
leaves holds the shared disposition in `sa`, has each watched signal the
kernel accepts set to it, and has four more `sigaction` calls in its trace. -/
theorem set_cron_signals_eq (K : Kernel) (w : World) :
    set_cron_signals K w = (Ctl.ret SCM_BOOL_T,
      { w with
        sa := cron_action,
        sigtable := fun s =>
          if s ∈ watched_signals ∧ K.refuses s = false then cron_action else w.sigtable s,
        trace := w.trace ++
          [Event.sigaction SIGTERM cron_action (if K.refuses SIGTERM then -1 else 0),
           Event.sigaction SIGINT cron_action (if K.refuses SIGINT then -1 else 0),
           Event.sigaction SIGQUIT cron_action (if K.refuses SIGQUIT then -1 else 0),
           Event.sigaction SIGHUP cron_action (if K.refuses SIGHUP then -1 else 0)] }) := by
  cases h1 : K.refuses SIGTERM <;> cases h2 : K.refuses SIGINT <;>
    cases h3 : K.refuses SIGQUIT <;> cases h4 : K.refuses SIGHUP <;>
    simp [set_cron_signals, memset_sa, assign_sa_handler, sigaction, h1, h2, h3, h4,
      struct_sigaction.zero, cron_action, watched_signals] <;>
    (funext s; simp only [SIGTERM, SIGINT, SIGQUIT, SIGHUP] at *;
      by_cases a1 : s = 1 <;> by_cases a2 : s = 2 <;> by_cases a3 : s = 3 <;>
      by_cases a4 : s = 15 <;> simp_all)

/-- The handler in closed form: only a cleanup evaluation that returns is
followed by `exit (1)`. -/
theorem react_to_terminal_signal_eq (ev : String → M SCM) (sig : Int) (w : World) :
    react_to_terminal_signal ev sig w = (match ev "(delete-run-file)" w with
      | (Ctl.ret _, w1) => (Ctl.exit 1, { w1 with trace := w1.trace ++ [Event.exit 1] })
      | (Ctl.exit n, w1) => (Ctl.exit n, w1)
      | (Ctl.throw, w1) => (Ctl.throw, w1)
      | (Ctl.killed s, w1) => (Ctl.killed s, w1)) := by
  simp only [react_to_terminal_signal, bind_apply]
  rcases ev "(delete-run-file)" w with ⟨c, w1⟩
  cases c <;> rfl

/-- Closed form of `inner_main`: the three bootstrap calls, then the
evaluation; or the error of an unresolved module. -/
theorem inner_main_eq (K : Kernel) (G : Guile) (c : Unit) (argv : List String) (w : World) :
    inner_main K G c argv w =
      if G.resolvable "mcron main" then
        ((Script.run K (G.behaviour "(main)") (world_at_entry w)).1.void,
         (Script.run K (G.behaviour "(main)") (world_at_entry w)).2)
      else (Ctl.throw, w) := by
  cases h : G.resolvable "mcron main"
  · simp [inner_main, scm_c_resolve_module, h]
  · simp only [inner_main, scm_c_resolve_module, h, bind_apply, pure_apply, if_true,
      scm_set_current_module, scm_c_define_gsubr, scm_c_eval_string, eval_as, log_apply,
      world_at_entry, List.append_assoc, List.cons_append, List.nil_append]
    split <;> simp_all [Ctl.void]

/-- The call `setenv` returns 0. -/
theorem setenv_eq (name value : String) (o : Int) (w : World) :
    setenv name value o w = (Ctl.ret 0, (setenv name value o w).2) := by
  unfold setenv
  split <;> rfl

/-- Closed form of `main`: what `inner_main` does in the world libguile
starts it in, followed by libguile's `exit (0)` when it returns. -/
theorem main_eq (K : Kernel) (G : Guile) (lp : String) (argv : List String) (w : World) :
    main K G lp argv w = (match inner_main K G () argv (world_at_boot lp argv w) with
      | (Ctl.ret _, w1) => (Ctl.exit 0, { w1 with trace := w1.trace ++ [Event.exit 0] })
      | (Ctl.exit n, w1) => (Ctl.exit n, w1)
      | (Ctl.throw, w1) => (Ctl.throw, w1)
      | (Ctl.killed s, w1) => (Ctl.killed s, w1)) := by
  unfold main
  rw [bind_apply, setenv_eq]
  simp only [scm_boot_guile, bind_apply, pure_apply, log_apply, exit_apply]
  show _ = (match inner_main K G () argv (world_at_boot lp argv w) with
      | (Ctl.ret _, w1) => (Ctl.exit 0, { w1 with trace := w1.trace ++ [Event.exit 0] })
      | (Ctl.exit n, w1) => (Ctl.exit n, w1)
      | (Ctl.throw, w1) => (Ctl.throw, w1)
      | (Ctl.killed s, w1) => (Ctl.killed s, w1))
  unfold world_at_boot
  rcases inner_main K G () argv _ with ⟨r, w1⟩
  cases r <;> rfl

/-- Induction over an evaluation: a relation between the worlds before and
after that is reflexive, transitive and kept by a primitive call, by the
logging of an evaluation and by `exit`, holds across every evaluation. -/
theorem Script.run_rel (K : Kernel) (R : World → World → Prop)
    (hrefl : ∀ w, R w w) (htrans : ∀ a b c, R a b → R b c → R a c)
    (happly : ∀ g n w, R w (Gsubr.apply K g n w).2)
    (heval : ∀ expr w, R w { w with trace := w.trace ++ [Event.scm_c_eval_string expr] })
    (hexit : ∀ n w, R w { w with trace := w.trace ++ [Event.exit n] }) :
    ∀ (S : Script) (w : World), R w (Script.run K S w).2 := by
  intro S
  induction S with
  | ret v => intro w; exact hrefl w
  | raise => intro w; exact hrefl w
  | call name nargs k ih =>
    intro w
    simp only [Script.run, bind_apply, call_gsubr]
    cases hf : w.gsubrs.find? (fun g => g.name == name) with
    | none => exact hrefl w
    | some g =>
      have h1 := happly g nargs w
      rcases hg : Gsubr.apply K g nargs w with ⟨r, w1⟩
      rw [hg] at h1
      cases r with
      | ret a => simp only [hg]; exact htrans _ _ _ h1 (ih w1)
      | exit n => simp only [hg]; exact h1
      | throw => simp only [hg]; exact h1
      | killed s => simp only [hg]; exact h1
  | signal sig cb k ihcb ihk =>
    intro w
    simp only [Script.run, bind_apply, deliver]
    cases hh : (w.sigtable sig).sa_handler with
    | SIG_DFL =>
      by_cases hd : K.default_terminates sig = true
      · simp only [hd, if_true]; exact hrefl w
      · simp only [hd]; exact ihk w
    | SIG_IGN => exact ihk w
    | foreign a => exact ihk w
    | react_to_terminal_signal =>
      simp only [react_to_terminal_signal_eq, eval_as, bind_apply, log_apply]
      have h0 := heval "(delete-run-file)" w
      have h1 := ihcb { w with trace := w.trace ++ [Event.scm_c_eval_string "(delete-run-file)"] }
      rcases hc : Script.run K cb
        { w with trace := w.trace ++ [Event.scm_c_eval_string "(delete-run-file)"] } with ⟨r, w1⟩
      rw [hc] at h1
      cases r with
      | ret a => exact htrans _ _ _ h0 (htrans _ _ _ h1 (hexit 1 w1))
      | exit n => exact htrans _ _ _ h0 h1
      | throw => exact htrans _ _ _ h0 h1
      | killed s => exact htrans _ _ _ h0 h1
  | catch_ body recover ihb ihr =>
    intro w
    simp only [Script.run]
    have h1 := ihb w
    rcases hb : Script.run K body w with ⟨r, w1⟩
    rw [hb] at h1
    cases r with
    | ret a => exact h1
    | exit n => exact h1
    | throw => exact htrans _ _ _ h1 (ihr w1)
    | killed s => exact h1

/-- A primitive call in closed form: an arity error, or the installer run
after the call is logged. -/
theorem Gsubr.apply_eq (K : Kernel) (g : Gsubr) (n : Nat) (w : World) :
    Gsubr.apply K g n w =
      if n < g.req ∨ (g.rst = 0 ∧ g.req + g.opt < n) then (Ctl.throw, w)
      else set_cron_signals K { w with trace := w.trace ++ [Event.gsubr_call g.fn] } := by
  unfold Gsubr.apply
  split
  · rfl
  · cases hfn : g.fn
    simp [CFun.run]

theorem frame_refl (w : World) : Frame w w :=
  ⟨rfl, rfl, rfl, [], by simp, by simp⟩

theorem frame_trans (a b c : World) (h1 : Frame a b) (h2 : Frame b c) : Frame a c := by
  obtain ⟨e1, g1, m1, r1, t1, f1⟩ := h1
  obtain ⟨e2, g2, m2, r2, t2, f2⟩ := h2
  refine ⟨e2.trans e1, g2.trans g1, m2.trans m1, r1 ++ r2, ?_, ?_⟩
  · rw [t2, t1, List.append_assoc]
  · intro e he
    rcases List.mem_append.mp he with h | h
    · exact f1 e h
    · exact f2 e h

theorem frame_one (w : World) (e : Event) (he : Event.from_evaluation e = true) :
    Frame w { w with trace := w.trace ++ [e] } :=
  ⟨rfl, rfl, rfl, [e], rfl, by simpa using he⟩

theorem frame_apply (K : Kernel) (g : Gsubr) (n : Nat) (w : World) :
    Frame w (Gsubr.apply K g n w).2 := by
  rw [Gsubr.apply_eq]
  split
  · exact frame_refl w
  · rw [set_cron_signals_eq]
    refine ⟨rfl, rfl, rfl, _, (List.append_assoc _ _ _), ?_⟩
    intro e he
    simp only [List.singleton_append, List.mem_cons, List.mem_singleton, List.not_mem_nil,
      or_false] at he
    rcases he with h | h | h | h | h <;> subst h <;> rfl

theorem Script.run_frame (K : Kernel) (S : Script) (w : World) :
    Frame w (Script.run K S w).2 :=
  Script.run_rel K Frame frame_refl frame_trans (frame_apply K)
    (fun expr w => frame_one w _ rfl) (fun n w => frame_one w _ rfl) S w

/-- The function `inner_main` leaves the environment alone and only appends to the trace. -/
theorem inner_main_keeps (K : Kernel) (G : Guile) (c : Unit) (argv : List String) (w : World) :
    (inner_main K G c argv w).2.environ = w.environ ∧
      ∃ rest, (inner_main K G c argv w).2.trace = w.trace ++ rest := by
  rw [inner_main_eq]
  split
  · obtain ⟨he, _, _, rest, ht, _⟩ :=
      Script.run_frame K (G.behaviour "(main)") (world_at_entry w)
    refine ⟨he, [Event.scm_set_current_module "mcron main",
      Event.scm_c_define_gsubr "c-set-cron-signals" 0 0 0 CFun.set_cron_signals,
      Event.scm_c_eval_string "(main)"] ++ rest, ?_⟩
    show (Script.run K (G.behaviour "(main)") (world_at_entry w)).2.trace = _
    rw [ht]
    simp [world_at_entry]
  · exact ⟨rfl, [], by simp⟩

/-- The function `main` only appends to the trace of the world libguile is booted in, and
leaves its environment alone. -/
theorem main_keeps (K : Kernel) (G : Guile) (lp : String) (argv : List String) (w : World) :
    (main K G lp argv w).2.environ = (world_at_boot lp argv w).environ ∧
      ∃ rest, (main K G lp argv w).2.trace = (world_at_boot lp argv w).trace ++ rest := by
  obtain ⟨he, rest, ht⟩ := inner_main_keeps K G () argv (world_at_boot lp argv w)
  rw [main_eq]
  rcases hr : inner_main K G () argv (world_at_boot lp argv w) with ⟨r, w1⟩
  rw [hr] at he ht
  cases r with
  | ret a =>
    simp only at he ht
    exact ⟨he, rest ++ [Event.exit 0], by simp only [ht, List.append_assoc]⟩
  | exit n => exact ⟨he, rest, ht⟩
  | throw => exact ⟨he, rest, ht⟩
  | killed sg => exact ⟨he, rest, ht⟩

/-- A signal whose disposition is not the shared handler runs no code of
`mcron.c`: the world stays as it is and the delivery does not end in `exit`. -/
theorem deliver_without_handler (K : Kernel) (ev : String → M SCM) (s : Int) (w : World)
    (h : (w.sigtable s).sa_handler ≠ Handler.react_to_terminal_signal) :
    (deliver K ev s w).2 = w ∧ ∀ n, (deliver K ev s w).1 ≠ Ctl.exit n := by
  unfold deliver
  cases hh : (w.sigtable s).sa_handler with
  | SIG_DFL => by_cases hd : K.default_terminates s = true <;> simp [hd]
  | SIG_IGN => simp
  | foreign a => simp
  | react_to_terminal_signal => exact absurd hh h

/-- An evaluation that never calls the installer, in a world where the
installer is the only primitive and no signal has the shared handler, changes
nothing at all and does not end in `exit`: every signal delivered in it gets
its inherited disposition. -/
theorem Script.run_without_installer (K : Kernel) (S : Script) (w : World)
    (hS : Script.calls "c-set-cron-signals" S = false)
    (hg : ∀ g ∈ w.gsubrs, g.name = "c-set-cron-signals")
    (ht : ∀ s, (w.sigtable s).sa_handler ≠ Handler.react_to_terminal_signal) :
    (Script.run K S w).2 = w ∧ ∀ n, (Script.run K S w).1 ≠ Ctl.exit n := by
  induction S with
  | ret v => exact ⟨rfl, fun n h => by cases h⟩
  | raise => exact ⟨rfl, fun n h => by cases h⟩
  | call name nargs k ih =>
    simp only [Script.calls, Bool.or_eq_false_iff, beq_eq_false_iff_ne, ne_eq] at hS
    have hf : w.gsubrs.find? (fun g => g.name == name) = none := by
      rw [List.find?_eq_none]
      intro g hgm
      have := hg g hgm
      simp only [beq_iff_eq, this]
      exact fun h => hS.1 h.symm
    simp [Script.run, call_gsubr, hf]
  | signal sig cb k ihcb ihk =>
    simp only [Script.calls, Bool.or_eq_false_iff] at hS
    have hk := ihk hS.2
    have hh := ht sig
    simp only [Script.run, bind_apply, deliver]
    cases hs : (w.sigtable sig).sa_handler with
    | SIG_DFL =>
      by_cases hd : K.default_terminates sig = true
      · simp [hd]
      · simp only [hd]
        exact hk
    | SIG_IGN => exact hk
    | foreign a => exact hk
    | react_to_terminal_signal => exact absurd hs hh
  | catch_ body recover ihb ihr =>
    simp only [Script.calls, Bool.or_eq_false_iff] at hS
    have hb := ihb hS.1
    have hr := ihr hS.2
    simp only [Script.run]
    rcases hrun : Script.run K body w with ⟨r, w1⟩
    rw [hrun] at hb
    obtain ⟨hw, hne⟩ := hb
    simp only at hw
    subst hw
    cases r with
    | ret a => exact ⟨rfl, fun n h => by cases h⟩
    | exit n => exact absurd rfl (hne n)
    | throw => exact hr
    | killed sg => exact ⟨rfl, fun n h => by cases h⟩

/-- A run of `main` whose embedded code never calls the installer, from a
world without primitives and without the shared handler: the signal table
stays as it was, the trace gains only the bootstrap calls and possibly
libguile's `exit (0)`, and the run does not end in `exit (1)`. -/
theorem main_without_installer (K : Kernel) (G : Guile) (lp : String) (argv : List String)
    (w : World) (hS : Script.calls "c-set-cron-signals" (G.behaviour "(main)") = false)
    (hg : w.gsubrs = [])
    (ht : ∀ s, (w.sigtable s).sa_handler ≠ Handler.react_to_terminal_signal) :
    (main K G lp argv w).2.sigtable = w.sigtable
      ∧ (∀ e ∈ (main K G lp argv w).2.trace, e ∈ w.trace
          ∨ e = Event.setenv "GUILE_LOAD_PATH" lp 1
          ∨ e = Event.scm_boot_guile argv (some lp)
          ∨ e = Event.scm_set_current_module "mcron main"
          ∨ e = Event.scm_c_define_gsubr "c-set-cron-signals" 0 0 0 CFun.set_cron_signals
          ∨ e = Event.scm_c_eval_string "(main)"
          ∨ e = Event.exit 0)
      ∧ (main K G lp argv w).1 ≠ Ctl.exit 1 := by
  have hbt : (world_at_boot lp argv w).trace =
      w.trace ++ [Event.setenv "GUILE_LOAD_PATH" lp 1, Event.scm_boot_guile argv (some lp)] := by
    simp [world_at_boot, setenv]
  have hbs : (world_at_boot lp argv w).sigtable = w.sigtable := by
    simp only [world_at_boot, setenv]
    split <;> rfl
  have hbg : (world_at_boot lp argv w).gsubrs = [] := by
    simp only [world_at_boot, setenv]
    split <;> exact hg
  by_cases hres : G.resolvable "mcron main" = true
  · have hrun := Script.run_without_installer K (G.behaviour "(main)")
      (world_at_entry (world_at_boot lp argv w)) hS
      (by intro g hgm
          simp only [world_at_entry, hbg, List.mem_singleton] at hgm
          rw [hgm])
      (by intro s
          show ((world_at_boot lp argv w).sigtable s).sa_handler ≠ _
          rw [hbs]
          exact ht s)
    rcases hr : Script.run K (G.behaviour "(main)")
      (world_at_entry (world_at_boot lp argv w)) with ⟨r, w1⟩
    rw [hr] at hrun
    obtain ⟨hw, hne⟩ := hrun
    simp only at hw
    subst hw
    have het : (world_at_entry (world_at_boot lp argv w)).trace =
        w.trace ++ [Event.setenv "GUILE_LOAD_PATH" lp 1, Event.scm_boot_guile argv (some lp),
          Event.scm_set_current_module "mcron main",
          Event.scm_c_define_gsubr "c-set-cron-signals" 0 0 0 CFun.set_cron_signals,
          Event.scm_c_eval_string "(main)"] := by
      simp [world_at_entry, hbt]
    have hes : (world_at_entry (world_at_boot lp argv w)).sigtable = w.sigtable := hbs
    have hi : inner_main K G () argv (world_at_boot lp argv w) =
        (r.void, world_at_entry (world_at_boot lp argv w)) := by
      rw [inner_main_eq, if_pos hres, hr]
    rw [main_eq, hi]
    cases r with
    | ret a =>
      refine ⟨hes, ?_, by simp [Ctl.void]⟩
      intro e he
      simp only [Ctl.void, het, List.mem_append, List.mem_cons, List.mem_singleton,
        List.not_mem_nil, or_false] at he
      tauto
    | exit n => exact absurd rfl (hne n)
    | throw =>
      refine ⟨hes, ?_, by simp [Ctl.void]⟩
      intro e he
      simp only [Ctl.void, het, List.mem_append, List.mem_cons, List.mem_singleton,
        List.not_mem_nil, or_false] at he
      tauto
    | killed sg =>
      refine ⟨hes, ?_, by simp [Ctl.void]⟩
      intro e he
      simp only [Ctl.void, het, List.mem_append, List.mem_cons, List.mem_singleton,
        List.not_mem_nil, or_false] at he
      tauto
  · have hi : inner_main K G () argv (world_at_boot lp argv w) =
        (Ctl.throw, world_at_boot lp argv w) := by
      rw [inner_main_eq, if_neg hres]
    rw [main_eq, hi]
    refine ⟨hbs, ?_, by simp⟩
    intro e he
    simp only [hbt, List.mem_append, List.mem_cons, List.mem_singleton,
      List.not_mem_nil, or_false] at he
    tauto

theorem only_installs_refl (w : World) : OnlyInstalls w w :=
  ⟨[], by simp, by simp⟩

theorem only_installs_trans (a b c : World) (h1 : OnlyInstalls a b) (h2 : OnlyInstalls b c) :
    OnlyInstalls a c := by
  obtain ⟨r1, t1, f1⟩ := h1
  obtain ⟨r2, t2, f2⟩ := h2
  refine ⟨r1 ++ r2, by rw [t2, t1, List.append_assoc], ?_⟩
  intro e he
  rcases List.mem_append.mp he with h | h
  · exact f1 e h
  · exact f2 e h

/-- A primitive call keeps the shared handler on watched signals only, logs
installation events only, and does not end in `exit`. -/
theorem Gsubr.apply_installs (K : Kernel) (g : Gsubr) (n : Nat) (w : World)
    (hI : HandlerOnlyOnWatched w) :
    HandlerOnlyOnWatched (Gsubr.apply K g n w).2 ∧ OnlyInstalls w (Gsubr.apply K g n w).2 ∧
      ∀ m, (Gsubr.apply K g n w).1 ≠ Ctl.exit m := by
  rw [Gsubr.apply_eq]
  split
  · exact ⟨hI, only_installs_refl w, fun m h => by cases h⟩
  · rw [set_cron_signals_eq]
    refine ⟨?_, ⟨_, (List.append_assoc _ _ _), ?_⟩, fun m h => by cases h⟩
    · intro s hs
      simp only at hs
      by_cases hw : s ∈ watched_signals
      · exact hw
      · simp only [hw, false_and, if_false] at hs
        exact hI s hs
    · intro e he
      simp only [List.singleton_append, List.mem_cons, List.mem_singleton, List.not_mem_nil,
        or_false] at he
      rcases he with h | h | h | h | h <;> subst h <;> rfl

/-- An evaluation during which no watched signal is delivered, in a world
where only watched signals have the shared handler, never runs the handler:
it logs installation events only and does not end in `exit`. -/
theorem Script.run_without_watched (K : Kernel) (S : Script) :
    ∀ (w : World), Script.delivers watched_signals S = false → HandlerOnlyOnWatched w →
      HandlerOnlyOnWatched (Script.run K S w).2 ∧ OnlyInstalls w (Script.run K S w).2 ∧
        ∀ n, (Script.run K S w).1 ≠ Ctl.exit n := by
  induction S with
  | ret v => intro w _ hI; exact ⟨hI, only_installs_refl w, fun n h => by cases h⟩
  | raise => intro w _ hI; exact ⟨hI, only_installs_refl w, fun n h => by cases h⟩
  | call name nargs k ih =>
    intro w hS hI
    simp only [Script.delivers] at hS
    simp only [Script.run, bind_apply, call_gsubr]
    cases hf : w.gsubrs.find? (fun g => g.name == name) with
    | none => exact ⟨hI, only_installs_refl w, fun n h => by cases h⟩
    | some g =>
      obtain ⟨a1, a2, a3⟩ := Gsubr.apply_installs K g nargs w hI
      rcases hg : Gsubr.apply K g nargs w with ⟨r, w1⟩
      rw [hg] at a1 a2 a3
      cases r with
      | ret a =>
        obtain ⟨b1, b2, b3⟩ := ih w1 hS a1
        simp only [hg]
        exact ⟨b1, only_installs_trans _ _ _ a2 b2, b3⟩
      | exit m => exact absurd rfl (a3 m)
      | throw => simp only [hg]; exact ⟨a1, a2, fun n h => by cases h⟩
      | killed sg => simp only [hg]; exact ⟨a1, a2, fun n h => by cases h⟩
  | signal sig cb k ihcb ihk =>
    intro w hS hI
    simp only [Script.delivers, Bool.or_eq_false_iff] at hS
    have hh : (w.sigtable sig).sa_handler ≠ Handler.react_to_terminal_signal := by
      intro h
      have hm := hI sig h
      have hc := hS.1.1
      simp [hm] at hc
    obtain ⟨d1, d2⟩ := deliver_without_handler K (eval_as (Script.run K cb)) sig w hh
    simp only [Script.run, bind_apply]
    rcases hd : deliver K (eval_as (Script.run K cb)) sig w with ⟨r, w1⟩
    rw [hd] at d1 d2
    simp only at d1
    subst d1
    cases r with
    | ret a => exact ihk _ hS.2 hI
    | exit m => exact absurd rfl (d2 m)
    | throw => exact ⟨hI, only_installs_refl _, fun n h => by cases h⟩
    | killed sg => exact ⟨hI, only_installs_refl _, fun n h => by cases h⟩
  | catch_ body recover ihb ihr =>
    intro w hS hI
    simp only [Script.delivers, Bool.or_eq_false_iff] at hS
    obtain ⟨a1, a2, a3⟩ := ihb w hS.1 hI
    simp only [Script.run]
    rcases hb : Script.run K body w with ⟨r, w1⟩
    rw [hb] at a1 a2 a3
    cases r with
    | ret a => exact ⟨a1, a2, a3⟩
    | exit m => exact absurd rfl (a3 m)
    | throw =>
      obtain ⟨b1, b2, b3⟩ := ihr w1 hS.2 a1
      exact ⟨b1, only_installs_trans _ _ _ a2 b2, b3⟩
    | killed sg => exact ⟨a1, a2, a3⟩

theorem balanced_refl (w : World) : Balanced w w := rfl

theorem balanced_trans (a b c : World) (h1 : Balanced a b) (h2 : Balanced b c) :
    Balanced a c := by
  unfold Balanced at *
  omega

/-- Appending an event that is neither a `sigaction` call nor an entry into the
installer keeps the balance. -/
theorem balanced_one (w : World) (e : Event) (h1 : Event.is_sigaction e = false)
    (h2 : e ≠ Event.gsubr_call CFun.set_cron_signals) :
    Balanced w { w with trace := w.trace ++ [e] } := by
  simp [Balanced, sigaction_calls, installer_calls, List.countP_append, List.countP_cons, h1, h2]

theorem balanced_apply (K : Kernel) (g : Gsubr) (n : Nat) (w : World) :
    Balanced w (Gsubr.apply K g n w).2 := by
  rw [Gsubr.apply_eq]
  split
  · exact balanced_refl w
  · rw [set_cron_signals_eq]
    cases hfn : g.fn
    simp [Balanced, sigaction_calls, installer_calls, List.countP_append, List.countP_cons,
      Event.is_sigaction]
    omega

theorem Script.run_balanced (K : Kernel) (S : Script) (w : World) :
    Balanced w (Script.run K S w).2 :=
  Script.run_rel K Balanced balanced_refl balanced_trans (balanced_apply K)
    (fun expr w => balanced_one w _ rfl (by simp))
    (fun n w => balanced_one w _ rfl (by simp)) S w

/-- Over a whole run of `main` the `sigaction` calls stay balanced with the
entries of embedded code into the installer. -/
theorem main_balanced (K : Kernel) (G : Guile) (lp : String) (argv : List String) (w : World) :
    Balanced w (main K G lp argv w).2 := by
  have hb : Balanced w (world_at_boot lp argv w) := by
    simp only [world_at_boot, setenv]
    split <;>
      simp [Balanced, sigaction_calls, installer_calls, List.countP_append, List.countP_cons,
        Event.is_sigaction]
  have he : Balanced (world_at_boot lp argv w) (world_at_entry (world_at_boot lp argv w)) := by
    simp [Balanced, world_at_entry, sigaction_calls, installer_calls, List.countP_append,
      List.countP_cons, Event.is_sigaction]
  have hr := Script.run_balanced K (G.behaviour "(main)")
    (world_at_entry (world_at_boot lp argv w))
  rw [main_eq, inner_main_eq]
  by_cases hres : G.resolvable "mcron main" = true
  · rw [if_pos hres]
    rcases hrun : Script.run K (G.behaviour "(main)")
      (world_at_entry (world_at_boot lp argv w)) with ⟨r, w1⟩
    rw [hrun] at hr
    have h2 := balanced_trans _ _ _ hb (balanced_trans _ _ _ he hr)
    cases r with
    | ret a => exact balanced_trans _ _ _ h2 (balanced_one w1 _ rfl (by simp))
    | exit n => exact h2
    | throw => exact h2
    | killed sg => exact h2
  · rw [if_neg hres]
    exact hb

theorem installed_iff (w : World) :
    installed w = true ↔
      ∀ s ∈ watched_signals, (w.sigtable s).sa_handler = Handler.react_to_terminal_signal := by
  simp [installed, List.all_eq_true]

/-- The installer never takes the shared handler away, whatever the kernel
answers. -/
theorem installed_after_set_cron_signals (K : Kernel) (w : World) (h : installed w = true) :
    installed (set_cron_signals K w).2 = true := by
  rw [installed_iff] at h ⊢
  intro s hs
  rw [set_cron_signals_eq]
  by_cases hk : K.refuses s = false
  · simp [hs, hk, cron_action]
  · simp only [hs, hk, and_false, if_false]
    exact h s hs

theorem signo_watched (s : WatchedSignal) : s.signo ∈ watched_signals := by
  cases s <;> simp [WatchedSignal.signo, watched_signals]

/-- Delivery of a watched signal where the handler is installed, in closed
form: the cleanup evaluation is logged and run, and `exit (1)` follows only
when it returns. -/
theorem deliver_installed_eq (K : Kernel) (w : World) (hw : installed w = true)
    (s : Int) (hs : s ∈ watched_signals) (m : M SCM) :
    deliver K (eval_as m) s w =
      (match m { w with trace := w.trace ++ [Event.scm_c_eval_string "(delete-run-file)"] } with
        | (Ctl.ret _, w1) => (Ctl.exit 1, { w1 with trace := w1.trace ++ [Event.exit 1] })
        | (Ctl.exit n, w1) => (Ctl.exit n, w1)
        | (Ctl.throw, w1) => (Ctl.throw, w1)
        | (Ctl.killed g, w1) => (Ctl.killed g, w1)) := by
  have hh := (installed_iff w).mp hw s hs
  unfold deliver
  rw [hh]
  simp only [react_to_terminal_signal_eq, eval_as, bind_apply, log_apply]

/-- No evaluation takes the shared handler away. -/
theorem Script.run_installed (K : Kernel) (S : Script) (w : World) (h : installed w = true) :
    installed (Script.run K S w).2 = true :=
  Script.run_rel K (fun a b => installed a = true → installed b = true)
    (fun _ h => h) (fun _ _ _ h1 h2 h => h2 (h1 h))
    (fun g n w h => by
      rw [Gsubr.apply_eq]
      split
      · exact h
      · exact installed_after_set_cron_signals K _ h)
    (fun _ _ h => h) (fun _ _ h => h) S w h

theorem phase_of_installed (c : Ctl Unit) (w : World) (h : installed w = true) :
    phase (c, w) ≠ some Phase.Uninstalled := by
  cases c <;> simp [phase, h]

theorem installed_of_phase (c : Ctl Unit) (w : World)
    (h : phase (c, w) = some Phase.Installed) : (∃ a, c = Ctl.ret a) ∧ installed w = true := by
  cases c with
  | ret a =>
    refine ⟨⟨a, rfl⟩, ?_⟩
    by_cases hi : installed w = true
    · exact hi
    · simp [phase, hi] at h
  | exit n => simp [phase] at h
  | throw => simp [phase] at h
  | killed g => simp [phase] at h

/-- One step from an `Installed` process exists and does not lead to
`Uninstalled`. -/
theorem step_from_installed (K : Kernel) (l : Step) (p : Proc)
    (hp : phase p = some Phase.Installed) :
    ∃ q, step K l p = some q ∧ phase q ≠ some Phase.Uninstalled := by
  obtain ⟨c, w⟩ := p
  obtain ⟨⟨a, rfl⟩, hi⟩ := installed_of_phase c w hp
  cases l with
  | install =>
    exact ⟨_, rfl, phase_of_installed _ _ (installed_after_set_cron_signals K w hi)⟩
  | deliver s cb caught =>
    exact ⟨_, rfl, phase_of_installed _ _ (Script.run_installed K _ w hi)⟩

/-- A process that is not running takes no step. -/
theorem step_from_ended (K : Kernel) (l : Step) (p : Proc) (hp : ∀ a, p.1 ≠ Ctl.ret a) :
    step K l p = none := by
  obtain ⟨c, w⟩ := p
  cases c with
  | ret a => exact absurd rfl (hp a)
  | exit n => cases l <;> rfl
  | throw => cases l <;> rfl
  | killed g => cases l <;> rfl

/-- A process that called `exit` takes no step. -/
theorem step_from_terminating (K : Kernel) (l : Step) (p : Proc)
    (hp : phase p = some Phase.Terminating) : step K l p = none := by
  apply step_from_ended
  intro a ha
  obtain ⟨c, w⟩ := p
  simp only at ha
  subst ha
  simp only [phase] at hp
  split at hp <;> simp at hp

/-- No process reached from one that is not `Uninstalled` is `Uninstalled`. -/
theorem steps_never_uninstall (K : Kernel) (ls : List Step) :
    ∀ (p q : Proc), phase p ≠ some Phase.Uninstalled → steps K ls p = some q →
      phase q ≠ some Phase.Uninstalled := by
  induction ls with
  | nil =>
    intro p q hp hq
    simp only [steps, Option.some.injEq] at hq
    rw [← hq]
    exact hp
  | cons l ls ih =>
    intro p q hp hq
    by_cases hr : ∃ a, p.1 = Ctl.ret a
    · obtain ⟨c, w⟩ := p
      obtain ⟨a, ha⟩ := hr
      simp only at ha
      subst ha
      have hi : phase (Ctl.ret a, w) = some Phase.Installed := by
        by_cases h : installed w = true
        · simp [phase, h]
        · exact absurd (by simp [phase, h]) hp
      obtain ⟨r, hs, hph⟩ := step_from_installed K l _ hi
      simp only [steps, hs] at hq
      exact ih r q hph hq
    · have hn := step_from_ended K l p (fun a ha => hr ⟨a, ha⟩)
      simp [steps, hn] at hq

/-- The delivery step from a process with the handler installed, in closed
form. -/
theorem step_deliver_eq (K : Kernel) (a : Unit) (w : World) (hw : installed w = true)
    (s : WatchedSignal) (cb : Script) (caught : Bool) :
    step K (Step.deliver s cb caught) (Ctl.ret a, w) =
      (match Script.run K cb
          { w with trace := w.trace ++ [Event.scm_c_eval_string "(delete-run-file)"] } with
        | (Ctl.ret _, w1) => some (Ctl.exit 1, { w1 with trace := w1.trace ++ [Event.exit 1] })
        | (Ctl.exit n, w1) => some (Ctl.exit n, w1)
        | (Ctl.throw, w1) => some (if caught then Ctl.ret () else Ctl.throw, w1)
        | (Ctl.killed g, w1) => some (Ctl.killed g, w1)) := by
  have hd := deliver_installed_eq K w hw s.signo (signo_watched s) (Script.run K cb)
  cases caught <;>
    simp only [step, interrupted, Script.run, bind_apply, hd, if_true, if_false,
      Bool.false_eq_true] <;>
    rcases Script.run K cb
      { w with trace := w.trace ++ [Event.scm_c_eval_string "(delete-run-file)"] }
      with ⟨c, w1⟩ <;>
    cases c <;> rfl

theorem quiet_until_installer_append (a b : List Event) :
    quiet_until_installer (a ++ b) =
      (quiet_until_installer a && (decide (0 < installer_calls a) || quiet_until_installer b)) := by
  induction a with
  | nil => simp [quiet_until_installer, installer_calls]
  | cons e a ih =>
    by_cases he : e = Event.gsubr_call CFun.set_cron_signals
    · simp [quiet_until_installer, installer_calls, he]
    · have hc : installer_calls (e :: a) = installer_calls a := by
        simp [installer_calls, List.countP_cons, he]
      simp only [List.cons_append, quiet_until_installer, he, decide_False, Bool.false_or,
        hc, Bool.and_assoc]
      show (e.quiet && quiet_until_installer (a ++ b)) = _
      rw [ih]

theorem installer_calls_append (a b : List Event) :
    installer_calls (a ++ b) = installer_calls a + installer_calls b := by
  simp [installer_calls, List.countP_append]

/-- Once embedded code has entered the installer, whatever is appended to the
trace keeps the property. -/
theorem untouched_after_call (t0 : Int → struct_sigaction) (w w1 : World)
    (h : UntouchedUntilInstaller t0 w) (hc : 0 < installer_calls w.trace)
    (rest : List Event) (ht : w1.trace = w.trace ++ rest) :
    UntouchedUntilInstaller t0 w1 := by
  constructor
  · rw [ht, quiet_until_installer_append, h.1]
    simp [hc]
  · intro h0
    rw [ht, installer_calls_append] at h0
    omega

/-- Appending quiet events that are no entry into the installer, with the signal
table kept, keeps the property. -/
theorem untouched_quiet_step (t0 : Int → struct_sigaction) (w w1 : World)
    (h : UntouchedUntilInstaller t0 w) (rest : List Event)
    (ht : w1.trace = w.trace ++ rest) (hs : w1.sigtable = w.sigtable)
    (hq : quiet_until_installer rest = true) (hn : installer_calls rest = 0) :
    UntouchedUntilInstaller t0 w1 := by
  constructor
  · rw [ht, quiet_until_installer_append, h.1, hq]
    simp
  · intro h0
    rw [ht, installer_calls_append] at h0
    rw [hs]
    exact h.2 (by omega)

/-- Every evaluation keeps the property: before the first entry into the
installer a delivered signal finds the table `t0`, which does not hold the
shared handler. -/
theorem Script.run_untouched (K : Kernel) (t0 : Int → struct_sigaction)
    (h0 : ∀ s, (t0 s).sa_handler ≠ Handler.react_to_terminal_signal) (S : Script) :
    ∀ (w : World), UntouchedUntilInstaller t0 w →
      UntouchedUntilInstaller t0 (Script.run K S w).2 := by
  have after : ∀ (S : Script) (w : World), UntouchedUntilInstaller t0 w →
      0 < installer_calls w.trace → UntouchedUntilInstaller t0 (Script.run K S w).2 := by
    intro S w hw hc
    obtain ⟨_, _, _, rest, ht, _⟩ := Script.run_frame K S w
    exact untouched_after_call t0 w _ hw hc rest ht
  induction S with
  | ret v => intro w hw; exact hw
  | raise => intro w hw; exact hw
  | call name nargs k ih =>
    intro w hw
    simp only [Script.run, bind_apply, call_gsubr]
    cases hf : w.gsubrs.find? (fun g => g.name == name) with
    | none => exact hw
    | some g =>
      have ha : UntouchedUntilInstaller t0 (Gsubr.apply K g nargs w).2 := by
        rw [Gsubr.apply_eq]
        split
        · exact hw
        · rw [set_cron_signals_eq]
          cases hfn : g.fn
          constructor
          · simp [quiet_until_installer_append, hw.1, quiet_until_installer]
          · intro hc
            simp [installer_calls_append, installer_calls, List.countP_cons] at hc
      rcases hg : Gsubr.apply K g nargs w with ⟨r, w1⟩
      rw [hg] at ha
      cases r with
      | ret a => simp only [hg]; exact ih w1 ha
      | exit n => simp only [hg]; exact ha
      | throw => simp only [hg]; exact ha
      | killed sg => simp only [hg]; exact ha
  | signal sig cb k ihcb ihk =>
    intro w hw
    by_cases hc : 0 < installer_calls w.trace
    · exact after _ w hw hc
    · have ht : w.sigtable = t0 := hw.2 (by omega)
      have hh : (w.sigtable sig).sa_handler ≠ Handler.react_to_terminal_signal := by
        rw [ht]
        exact h0 sig
      obtain ⟨d1, d2⟩ := deliver_without_handler K (eval_as (Script.run K cb)) sig w hh
      simp only [Script.run, bind_apply]
      rcases hd : deliver K (eval_as (Script.run K cb)) sig w with ⟨r, w1⟩
      rw [hd] at d1 d2
      simp only at d1
      subst d1
      cases r with
      | ret a => exact ihk _ hw
      | exit m => exact absurd rfl (d2 m)
      | throw => exact hw
      | killed sg => exact hw
  | catch_ body recover ihb ihr =>
    intro w hw
    have hb := ihb w hw
    simp only [Script.run]
    rcases hrun : Script.run K body w with ⟨r, w1⟩
    rw [hrun] at hb
    cases r with
    | ret a => exact hb
    | exit n => exact hb
    | throw => exact ihr w1 hb
    | killed sg => exact hb

/-- Over a whole run of `main` from process start there is no handler activity
before embedded code first enters the installer, and until then the signal
table is the inherited one. -/
theorem main_untouched (K : Kernel) (G : Guile) (lp : String) (argv : List String)
    (environ : String → Option String) (ignored : Int → Bool) :
    UntouchedUntilInstaller (process_start environ ignored).sigtable
      (main K G lp argv (process_start environ ignored)).2 := by
  have h0 : ∀ s, ((process_start environ ignored).sigtable s).sa_handler ≠
      Handler.react_to_terminal_signal := by
    intro s
    simp only [process_start]
    split <;> simp
  have hs : UntouchedUntilInstaller (process_start environ ignored).sigtable
      (process_start environ ignored) := ⟨rfl, fun _ => rfl⟩
  have hb : UntouchedUntilInstaller (process_start environ ignored).sigtable
      (world_at_boot lp argv (process_start environ ignored)) := by
    refine untouched_quiet_step _ _ _ hs
      [Event.setenv "GUILE_LOAD_PATH" lp 1, Event.scm_boot_guile argv (some lp)]
      ?_ ?_ ?_ ?_
    · simp [world_at_boot, setenv, process_start]
    · simp only [world_at_boot, setenv]
      split <;> rfl
    · simp [quiet_until_installer, Event.quiet, Event.is_sigaction]
    · simp [installer_calls, List.countP_cons]
  have he : UntouchedUntilInstaller (process_start environ ignored).sigtable
      (world_at_entry (world_at_boot lp argv (process_start environ ignored))) := by
    refine untouched_quiet_step _ _ _ hb
      [Event.scm_set_current_module "mcron main",
       Event.scm_c_define_gsubr "c-set-cron-signals" 0 0 0 CFun.set_cron_signals,
       Event.scm_c_eval_string "(main)"] rfl rfl ?_ ?_
    · simp [quiet_until_installer, Event.quiet, Event.is_sigaction]
    · simp [installer_calls, List.countP_cons]
  have hr := Script.run_untouched K _ h0 (G.behaviour "(main)") _ he
  rw [main_eq, inner_main_eq]
  by_cases hres : G.resolvable "mcron main" = true
  · rw [if_pos hres]
    rcases hrun : Script.run K (G.behaviour "(main)")
      (world_at_entry (world_at_boot lp argv (process_start environ ignored))) with ⟨r, w1⟩
    rw [hrun] at hr
    cases r with
    | ret a =>
      refine untouched_quiet_step _ _ _ hr [Event.exit 0] rfl rfl ?_ ?_
      · simp [quiet_until_installer, Event.quiet, Event.is_sigaction]
      · simp [installer_calls, List.countP_cons]
    | exit n => exact hr
    | throw => exact hr
    | killed sg => exact hr
  · rw [if_neg hres]
    exact hb

/-! ## The claims -/

/-- C1, as the code has it: `set_cron_signals` leaves, whatever the state
before it, a state in which all four of SIGTERM, SIGINT, SIGQUIT and SIGHUP
have the shared handler; in every such state, delivering any of the four runs
`react_to_terminal_signal`, whose own effects are one evaluation of
`"(delete-run-file)"`, always its first, followed by `exit (1)` when that
evaluation returns and by nothing when it does not; with a cleanup that
returns without effects of its own the trace grows by exactly the evaluation
and the exit with status 1.  This is the same for all four signals: the
handler does not depend on its signal argument. -/
theorem watched_signal_after_install_cleans_up_and_exits_1 (w0 : World) :
    installed (set_cron_signals linux w0).2 = true
      ∧ (∀ (K : Kernel) (w : World), installed w = true →
          ∀ s ∈ watched_signals, ∀ (cb : Script),
            deliver K (eval_as (Script.run K cb)) s w =
              (match Script.run K cb { w with
                  trace := w.trace ++ [Event.scm_c_eval_string "(delete-run-file)"] } with
                | (Ctl.ret _, w1) =>
                    (Ctl.exit 1, { w1 with trace := w1.trace ++ [Event.exit 1] })
                | (Ctl.exit n, w1) => (Ctl.exit n, w1)
                | (Ctl.throw, w1) => (Ctl.throw, w1)
                | (Ctl.killed g, w1) => (Ctl.killed g, w1))
              ∧ ∃ rest, (deliver K (eval_as (Script.run K cb)) s w).2.trace =
                  w.trace ++ [Event.scm_c_eval_string "(delete-run-file)"] ++ rest)
      ∧ (∀ (K : Kernel) (w : World), installed w = true →
          ∀ s ∈ watched_signals, ∀ (v : SCM),
            deliver K (eval_as (pure v)) s w =
              (Ctl.exit 1, { w with
                trace := w.trace ++
                  [Event.scm_c_eval_string "(delete-run-file)", Event.exit 1] }))
      ∧ ∀ (ev : String → M SCM) (s1 s2 : Int) (w : World),
          react_to_terminal_signal ev s1 w = react_to_terminal_signal ev s2 w := by
  refine ⟨?_, ?_, ?_, fun ev s1 s2 w => rfl⟩
  · rw [installed_iff]
    intro s hs
    have hk : linux.refuses s = false := by
      simp only [watched_signals, List.mem_cons, List.mem_singleton, List.not_mem_nil,
        or_false] at hs
      rcases hs with h | h | h | h <;> subst h <;> decide
    rw [set_cron_signals_eq]
    simp [hs, hk, cron_action]
  · intro K w hw s hs cb
    have hd := deliver_installed_eq K w hw s hs (Script.run K cb)
    refine ⟨hd, ?_⟩
    rw [hd]
    obtain ⟨_, _, _, rest, ht, _⟩ := Script.run_frame K cb
      { w with trace := w.trace ++ [Event.scm_c_eval_string "(delete-run-file)"] }
    rcases hr : Script.run K cb
      { w with trace := w.trace ++ [Event.scm_c_eval_string "(delete-run-file)"] }
      with ⟨c, w1⟩
    rw [hr] at ht
    simp only at ht
    cases c with
    | ret a => exact ⟨rest ++ [Event.exit 1], by simp only [ht, List.append_assoc]⟩
    | exit n => exact ⟨rest, ht⟩
    | throw => exact ⟨rest, ht⟩
    | killed g => exact ⟨rest, ht⟩
  · intro K w hw s hs v
    have hh := (installed_iff w).mp hw s hs
    unfold deliver
    rw [hh]
    simp [react_to_terminal_signal_eq, eval_as]

/-- C1 at SIGHUP in a fresh process in which the handler has just been
installed; and the scenario as a whole run: `(main)` installs the handler,
SIGTERM arrives, the cleanup is evaluated once and the process exits with
status 1. -/
theorem watched_signal_after_install_cleans_up_and_exits_1_witness :
    deliver linux (eval_as (pure SCM.unspecified)) SIGHUP (set_cron_signals linux fresh).2 =
        (Ctl.exit 1,
          { (set_cron_signals linux fresh).2 with
            trace := (set_cron_signals linux fresh).2.trace ++
              [Event.scm_c_eval_string "(delete-run-file)", Event.exit 1] })
    ∧ (main linux guile_cron "/usr/share/mcron" ["mcron"] fresh).1 = Ctl.exit 1
    ∧ (main linux guile_cron "/usr/share/mcron" ["mcron"] fresh).2.trace =
        [Event.setenv "GUILE_LOAD_PATH" "/usr/share/mcron" 1,
         Event.scm_boot_guile ["mcron"] (some "/usr/share/mcron"),
         Event.scm_set_current_module "mcron main",
         Event.scm_c_define_gsubr "c-set-cron-signals" 0 0 0 CFun.set_cron_signals,
         Event.scm_c_eval_string "(main)",
         Event.gsubr_call CFun.set_cron_signals,
         Event.sigaction SIGTERM cron_action 0,
         Event.sigaction SIGINT cron_action 0,
         Event.sigaction SIGQUIT cron_action 0,
         Event.sigaction SIGHUP cron_action 0,
         Event.scm_c_eval_string "(delete-run-file)",
         Event.exit 1] := by
  have h := watched_signal_after_install_cleans_up_and_exits_1 fresh
  refine ⟨h.2.2.1 linux _ h.1 SIGHUP (by decide) SCM.unspecified, ?_, ?_⟩ <;>
    simp [main_eq, inner_main_eq, guile_cron, Script.run, call_gsubr, deliver,
      world_at_entry, world_at_boot, setenv, fresh, process_start, Gsubr.apply_eq,
      set_cron_signals_eq, Ctl.void, react_to_terminal_signal_eq, eval_as, watched_signals,
      linux, SIGTERM, SIGINT, SIGQUIT, SIGHUP, SIGKILL, SIGSTOP, NSIG, cron_action]

/-- C1 as stated fails: in the state a fresh process is in after
`set_cron_signals`, SIGHUP with a cleanup that raises ends in the error, with
the cleanup evaluated and no `exit (1)`; and SIGTERM with a cleanup during
which SIGINT arrives shows two cleanup evaluations before the exit, not
one. -/
theorem cleanup_is_not_always_followed_by_exit_1 :
    installed (set_cron_signals linux fresh).2 = true
      ∧ SIGHUP ∈ watched_signals
      ∧ deliver linux (eval_as (Script.run linux Script.raise)) SIGHUP
          (set_cron_signals linux fresh).2 =
          (Ctl.throw, { (set_cron_signals linux fresh).2 with
            trace := (set_cron_signals linux fresh).2.trace ++
              [Event.scm_c_eval_string "(delete-run-file)"] })
      ∧ Event.exit 1 ∉ (deliver linux (eval_as (Script.run linux Script.raise)) SIGHUP
          (set_cron_signals linux fresh).2).2.trace
      ∧ (deliver linux (eval_as (Script.run linux
            (Script.signal SIGINT (Script.ret SCM.unspecified) (Script.ret SCM.unspecified))))
          SIGTERM (set_cron_signals linux fresh).2).2.trace =
          (set_cron_signals linux fresh).2.trace ++
            [Event.scm_c_eval_string "(delete-run-file)",
             Event.scm_c_eval_string "(delete-run-file)", Event.exit 1] := by
  refine ⟨?_, by decide, ?_, ?_, ?_⟩ <;>
    simp [installed, deliver, Script.run, fresh, process_start, set_cron_signals_eq,
      react_to_terminal_signal_eq, eval_as, watched_signals, linux, cron_action,
      SIGTERM, SIGINT, SIGQUIT, SIGHUP, SIGKILL, SIGSTOP, NSIG]

/-- C2: in every prior state and for every kernel, that is whatever the four
`sigaction` calls return, `set_cron_signals` returns normally and its value
is `SCM_BOOL_T`; it neither raises nor exits. -/
theorem set_cron_signals_returns_true (K : Kernel) (w : World) :
    (set_cron_signals K w).1 = Ctl.ret SCM_BOOL_T := by
  rw [set_cron_signals_eq]

/-- C5: for every inherited environment, `main` calls `setenv` with overwrite
enabled and then `scm_boot_guile`, which reads `GUILE_LOAD_PATH` as the
build-time constant; in the world libguile is booted in, and in the final
world, that variable holds the constant and every other variable is as
inherited. -/
theorem main_boots_with_configured_load_path
    (K : Kernel) (G : Guile) (lp : String) (argv : List String) (w : World) :
    (∃ rest, (main K G lp argv w).2.trace =
        w.trace ++ [Event.setenv "GUILE_LOAD_PATH" lp 1,
                    Event.scm_boot_guile argv (some lp)] ++ rest)
      ∧ (world_at_boot lp argv w).environ =
          (fun n => if n = "GUILE_LOAD_PATH" then some lp else w.environ n)
      ∧ (main K G lp argv w).2.environ =
          (fun n => if n = "GUILE_LOAD_PATH" then some lp else w.environ n) := by
  have hb : (world_at_boot lp argv w).environ =
      (fun n => if n = "GUILE_LOAD_PATH" then some lp else w.environ n) := by
    simp [world_at_boot, setenv]
  have ht : (world_at_boot lp argv w).trace =
      w.trace ++ [Event.setenv "GUILE_LOAD_PATH" lp 1, Event.scm_boot_guile argv (some lp)] := by
    simp [world_at_boot, setenv]
  obtain ⟨he, rest, hr⟩ := main_keeps K G lp argv w
  exact ⟨⟨rest, by rw [hr, ht]⟩, hb, by rw [he, hb]⟩

/-- C6: whatever the signal table held before, after `set_cron_signals` each
of SIGTERM, SIGINT, SIGQUIT and SIGHUP has the shared handler
`react_to_terminal_signal` with no flag and an empty mask, every other signal
has exactly its earlier disposition, and a second call of the installer leaves
the table as the first one left it. -/
theorem set_cron_signals_table (w : World) :
    (∀ s, s ∈ watched_signals →
        (set_cron_signals linux w).2.sigtable s =
          { sa_handler := Handler.react_to_terminal_signal, sa_mask := [], sa_flags := 0 })
      ∧ (∀ s, s ∉ watched_signals → (set_cron_signals linux w).2.sigtable s = w.sigtable s)
      ∧ (set_cron_signals linux (set_cron_signals linux w).2).2.sigtable =
          (set_cron_signals linux w).2.sigtable := by
  have hk : ∀ s, s ∈ watched_signals → linux.refuses s = false := by
    intro s hs
    simp only [watched_signals, List.mem_cons, List.mem_singleton, List.not_mem_nil,
      or_false] at hs
    rcases hs with h | h | h | h <;> subst h <;> decide
  refine ⟨?_, ?_, ?_⟩
  · intro s hs
    rw [set_cron_signals_eq]
    simp [hs, hk s hs, cron_action]
  · intro s hs
    rw [set_cron_signals_eq]
    simp [hs]
  · rw [set_cron_signals_eq, set_cron_signals_eq]
    funext s
    by_cases hs : s ∈ watched_signals
    · simp [hs, hk s hs]
    · simp [hs]

/-- C8: for every argument vector and starting world, when the module
`"mcron main"` resolves `inner_main` does exactly three things before the
evaluation takes over, in this order: it selects that module, registers one
primitive (`"c-set-cron-signals"`, 0 required, 0 optional, no rest argument,
bound to `set_cron_signals`), and evaluates `"(main)"`; everything after is
what that evaluation does, and it registers nothing.  When the module does not
resolve, `inner_main` ends in the error with the world untouched: no
registration, no evaluation. -/
theorem inner_main_three_steps_in_order
    (K : Kernel) (G : Guile) (c : Unit) (argv : List String) (w : World) :
    if G.resolvable "mcron main" then
      inner_main K G c argv w =
          ((Script.run K (G.behaviour "(main)") (world_at_entry w)).1.void,
           (Script.run K (G.behaviour "(main)") (world_at_entry w)).2)
        ∧ (world_at_entry w).trace = w.trace ++
            [Event.scm_set_current_module "mcron main",
             Event.scm_c_define_gsubr "c-set-cron-signals" 0 0 0 CFun.set_cron_signals,
             Event.scm_c_eval_string "(main)"]
        ∧ (∃ rest, (inner_main K G c argv w).2.trace = w.trace ++
            [Event.scm_set_current_module "mcron main",
             Event.scm_c_define_gsubr "c-set-cron-signals" 0 0 0 CFun.set_cron_signals,
             Event.scm_c_eval_string "(main)"] ++ rest
            ∧ ∀ e ∈ rest, Event.from_evaluation e = true)
        ∧ (inner_main K G c argv w).2.gsubrs =
            { name := "c-set-cron-signals", req := 0, opt := 0, rst := 0,
              fn := CFun.set_cron_signals } :: w.gsubrs
        ∧ (inner_main K G c argv w).2.current_module = some "mcron main"
        ∧ gsubr_definitions (inner_main K G c argv w).2.trace = gsubr_definitions w.trace + 1
    else
      inner_main K G c argv w = (Ctl.throw, w) := by
  rw [inner_main_eq]
  split
  · obtain ⟨_, hg, hm, rest, ht, hr⟩ :=
      Script.run_frame K (G.behaviour "(main)") (world_at_entry w)
    have h3 : (world_at_entry w).trace = w.trace ++
        [Event.scm_set_current_module "mcron main",
         Event.scm_c_define_gsubr "c-set-cron-signals" 0 0 0 CFun.set_cron_signals,
         Event.scm_c_eval_string "(main)"] := rfl
    refine ⟨rfl, h3, ⟨rest, ?_, hr⟩, hg, hm, ?_⟩
    · show (Script.run K (G.behaviour "(main)") (world_at_entry w)).2.trace = _
      rw [ht, h3]
    · show gsubr_definitions (Script.run K (G.behaviour "(main)") (world_at_entry w)).2.trace = _
      rw [ht, h3]
      have h0 : List.countP (fun e => match e with
          | Event.scm_c_define_gsubr _ _ _ _ _ => true
          | _ => false) rest = 0 := by
        rw [List.countP_eq_zero]
        intro e he
        have := hr e he
        cases e <;> simp_all [Event.from_evaluation]
      simp [gsubr_definitions, List.countP_append, h0, List.countP_cons]
  · rfl

/-- C3: in every run of `main` from process start, whatever signals are
delivered and wherever, nothing of the handler happens before embedded code
first enters `c-set-cron-signals`: up to that point the trace holds no
`sigaction` call, no evaluation of `"(delete-run-file)"` and no `exit (1)`, and
while embedded code has not entered it the signal table is the inherited one.
So in a run in which embedded code does not call the primitive, none of
SIGTERM, SIGINT, SIGQUIT, SIGHUP has `react_to_terminal_signal`, the cleanup is
never evaluated, `exit (1)` is never called, the run does not end in status 1,
and delivering any signal in the state reached runs no handler code: it
changes nothing and does not end in `exit`. -/
theorem no_handler_before_installer_call
    (K : Kernel) (G : Guile) (lp : String) (argv : List String)
    (environ : String → Option String) (ignored : Int → Bool) :
    quiet_until_installer (main K G lp argv (process_start environ ignored)).2.trace = true
      ∧ (installer_calls (main K G lp argv (process_start environ ignored)).2.trace = 0 →
          (main K G lp argv (process_start environ ignored)).2.sigtable =
            (process_start environ ignored).sigtable)
      ∧ (∀ s, ((process_start environ ignored).sigtable s).sa_handler ≠
          Handler.react_to_terminal_signal)
      ∧ (Script.calls "c-set-cron-signals" (G.behaviour "(main)") = false →
          (main K G lp argv (process_start environ ignored)).2.sigtable =
              (process_start environ ignored).sigtable
            ∧ (∀ s ∈ watched_signals,
                ((main K G lp argv (process_start environ ignored)).2.sigtable s).sa_handler ≠
                  Handler.react_to_terminal_signal)
            ∧ Event.scm_c_eval_string "(delete-run-file)" ∉
                (main K G lp argv (process_start environ ignored)).2.trace
            ∧ Event.exit 1 ∉ (main K G lp argv (process_start environ ignored)).2.trace
            ∧ (main K G lp argv (process_start environ ignored)).1 ≠ Ctl.exit 1
            ∧ ∀ (s : Int) (ev : String → M SCM),
                (deliver K ev s (main K G lp argv (process_start environ ignored)).2).2 =
                    (main K G lp argv (process_start environ ignored)).2
                  ∧ ∀ n,
                    (deliver K ev s (main K G lp argv (process_start environ ignored)).2).1 ≠
                      Ctl.exit n) := by
  have ht : ∀ s, ((process_start environ ignored).sigtable s).sa_handler ≠
      Handler.react_to_terminal_signal := by
    intro s
    simp only [process_start]
    split <;> simp
  obtain ⟨hq, htab⟩ := main_untouched K G lp argv environ ignored
  refine ⟨hq, htab, ht, fun hS => ?_⟩
  obtain ⟨h1, h2, h3⟩ :=
    main_without_installer K G lp argv (process_start environ ignored) hS rfl ht
  refine ⟨h1, ?_, ?_, ?_, h3, ?_⟩
  · intro s _
    rw [h1]
    exact ht s
  · intro hm
    have := h2 _ hm
    simp [process_start] at this
  · intro hm
    have := h2 _ hm
    simp [process_start] at this
  · intro s ev
    have hs := ht s
    rw [← h1] at hs
    exact deliver_without_handler K ev s _ hs

/-- C3 for an embedded program that installs nothing and receives SIGHUP
(ignored at process start) and then SIGINT: the default action kills the
process, with no cleanup and no `exit (1)`. -/
theorem no_handler_before_installer_call_witness :
    Script.calls "c-set-cron-signals" (guile_uninstalled.behaviour "(main)") = false
      ∧ (main linux guile_uninstalled "/usr/share/mcron" ["mcron"] fresh).1 = Ctl.killed SIGINT
      ∧ Event.scm_c_eval_string "(delete-run-file)" ∉
          (main linux guile_uninstalled "/usr/share/mcron" ["mcron"] fresh).2.trace
      ∧ (main linux guile_uninstalled "/usr/share/mcron" ["mcron"] fresh).1 ≠ Ctl.exit 1 := by
  have h := (no_handler_before_installer_call linux guile_uninstalled "/usr/share/mcron"
    ["mcron"] (fun _ => none) (fun s => decide (s = SIGHUP))).2.2.2 (by decide)
  rw [show fresh = process_start (fun _ => none) (fun s => decide (s = SIGHUP)) from rfl]
  refine ⟨by decide, ?_, h.2.2.1, h.2.2.2.2.1⟩
  simp [main_eq, inner_main_eq, guile_uninstalled, Script.run, deliver,
    world_at_entry, world_at_boot, setenv, process_start, Ctl.void,
    linux, SIGTERM, SIGINT, SIGQUIT, SIGHUP, SIGKILL, SIGSTOP, NSIG, SIGCHLD, SIGCONT,
    SIGTSTP, SIGTTIN, SIGTTOU, SIGURG, SIGWINCH]

/-- C4: in every run of `main` from process start during which no watched
signal is delivered, the cleanup `"(delete-run-file)"` is never evaluated and
`exit (1)` is never called, however the run ends; and when the module resolves
and the evaluation of `"(main)"` returns normally, the process exits with
status 0. -/
theorem normal_return_exits_0_without_cleanup
    (K : Kernel) (G : Guile) (lp : String) (argv : List String)
    (environ : String → Option String) (ignored : Int → Bool)
    (hS : Script.delivers watched_signals (G.behaviour "(main)") = false) :
    Event.scm_c_eval_string "(delete-run-file)" ∉
        (main K G lp argv (process_start environ ignored)).2.trace
      ∧ Event.exit 1 ∉ (main K G lp argv (process_start environ ignored)).2.trace
      ∧ ∀ v, G.resolvable "mcron main" = true →
          (Script.run K (G.behaviour "(main)")
            (world_at_entry (world_at_boot lp argv (process_start environ ignored)))).1
              = Ctl.ret v →
          (main K G lp argv (process_start environ ignored)).1 = Ctl.exit 0
            ∧ exit_status (main K G lp argv (process_start environ ignored)).1 = some 0 := by
  have hbt : (world_at_boot lp argv (process_start environ ignored)).trace =
      [Event.setenv "GUILE_LOAD_PATH" lp 1, Event.scm_boot_guile argv (some lp)] := by
    simp [world_at_boot, setenv, process_start]
  have hbs : (world_at_boot lp argv (process_start environ ignored)).sigtable =
      (process_start environ ignored).sigtable := by
    simp only [world_at_boot, setenv]
    split <;> rfl
  have het : (world_at_entry (world_at_boot lp argv (process_start environ ignored))).trace =
      [Event.setenv "GUILE_LOAD_PATH" lp 1, Event.scm_boot_guile argv (some lp),
        Event.scm_set_current_module "mcron main",
        Event.scm_c_define_gsubr "c-set-cron-signals" 0 0 0 CFun.set_cron_signals,
        Event.scm_c_eval_string "(main)"] := by
    simp [world_at_entry, hbt]
  have hI : HandlerOnlyOnWatched
      (world_at_entry (world_at_boot lp argv (process_start environ ignored))) := by
    intro s hs
    have hs2 : ((world_at_boot lp argv (process_start environ ignored)).sigtable s).sa_handler
        = Handler.react_to_terminal_signal := hs
    rw [hbs] at hs2
    simp only [process_start] at hs2
    split at hs2 <;> cases hs2
  obtain ⟨_, ⟨rest, hrest, hinst⟩, hne⟩ := Script.run_without_watched K (G.behaviour "(main)")
    (world_at_entry (world_at_boot lp argv (process_start environ ignored))) hS hI
  have hnc : ∀ e ∈ rest, e ≠ Event.scm_c_eval_string "(delete-run-file)" ∧ e ≠ Event.exit 1 := by
    intro e he
    have := hinst e he
    constructor <;> intro h <;> subst h <;> simp [Event.from_installer] at this
  rw [het] at hrest
  by_cases hres : G.resolvable "mcron main" = true
  · rcases hr : Script.run K (G.behaviour "(main)")
      (world_at_entry (world_at_boot lp argv (process_start environ ignored))) with ⟨r, w1⟩
    rw [hr] at hrest hne
    simp only at hrest
    have hi : inner_main K G () argv (world_at_boot lp argv (process_start environ ignored)) =
        (r.void, w1) := by
      rw [inner_main_eq, if_pos hres, hr]
    rw [main_eq, hi]
    cases r with
    | ret a =>
      refine ⟨?_, ?_, fun v _ _ => ⟨rfl, rfl⟩⟩
      · intro hm
        simp only [Ctl.void, hrest, List.mem_append, List.mem_cons, List.mem_singleton,
          List.not_mem_nil, or_false] at hm
        rcases hm with (h | h) | h
        · simp at h
        · exact (hnc _ h).1 rfl
        · simp at h
      · intro hm
        simp only [Ctl.void, hrest, List.mem_append, List.mem_cons, List.mem_singleton,
          List.not_mem_nil, or_false] at hm
        rcases hm with (h | h) | h
        · simp at h
        · exact (hnc _ h).2 rfl
        · simp at h
    | exit n => exact absurd rfl (hne n)
    | throw =>
      refine ⟨?_, ?_, fun v _ h => by cases h⟩
      · intro hm
        simp only [Ctl.void, hrest, List.mem_append, List.mem_cons, List.mem_singleton,
          List.not_mem_nil, or_false] at hm
        rcases hm with h | h
        · simp at h
        · exact (hnc _ h).1 rfl
      · intro hm
        simp only [Ctl.void, hrest, List.mem_append, List.mem_cons, List.mem_singleton,
          List.not_mem_nil, or_false] at hm
        rcases hm with h | h
        · simp at h
        · exact (hnc _ h).2 rfl
    | killed sg =>
      refine ⟨?_, ?_, fun v _ h => by cases h⟩
      · intro hm
        simp only [Ctl.void, hrest, List.mem_append, List.mem_cons, List.mem_singleton,
          List.not_mem_nil, or_false] at hm
        rcases hm with h | h
        · simp at h
        · exact (hnc _ h).1 rfl
      · intro hm
        simp only [Ctl.void, hrest, List.mem_append, List.mem_cons, List.mem_singleton,
          List.not_mem_nil, or_false] at hm
        rcases hm with h | h
        · simp at h
        · exact (hnc _ h).2 rfl
  · have hi : inner_main K G () argv (world_at_boot lp argv (process_start environ ignored)) =
        (Ctl.throw, world_at_boot lp argv (process_start environ ignored)) := by
      rw [inner_main_eq, if_neg hres]
    rw [main_eq, hi]
    refine ⟨?_, ?_, fun v h _ => absurd h hres⟩
    · simp [hbt]
    · simp [hbt]

/-- C4 for an embedded program that installs the handler (twice), receives no
signal and returns: exit status 0, no cleanup. -/
theorem normal_return_exits_0_without_cleanup_witness :
    Script.delivers watched_signals (guile_installing_twice.behaviour "(main)") = false
      ∧ (main linux guile_installing_twice "/usr/share/mcron" ["mcron"] fresh).1 = Ctl.exit 0
      ∧ exit_status (main linux guile_installing_twice "/usr/share/mcron" ["mcron"] fresh).1
          = some 0
      ∧ Event.scm_c_eval_string "(delete-run-file)" ∉
          (main linux guile_installing_twice "/usr/share/mcron" ["mcron"] fresh).2.trace := by
  have h := normal_return_exits_0_without_cleanup linux guile_installing_twice
    "/usr/share/mcron" ["mcron"] (fun _ => none) (fun s => decide (s = SIGHUP)) (by decide)
  have h2 := h.2.2 SCM.unspecified rfl
    (by simp [guile_installing_twice, Script.run, call_gsubr, world_at_entry, Gsubr.apply_eq,
          set_cron_signals_eq])
  rw [show fresh = process_start (fun _ => none) (fun s => decide (s = SIGHUP)) from rfl]
  exact ⟨by decide, h2.1, h2.2, h.1⟩

/-- C7, as the code has it: over every run of `main` from process start,
`sigaction` is called exactly four times for each call of the
`c-set-cron-signals` primitive by embedded code and never otherwise, so the
number of installations is the number of those calls, whatever it is; `main`
and `inner_main` install nothing themselves: in a run whose embedded code
never calls the primitive there is no `sigaction` call and no entry into
`set_cron_signals` at all. -/
theorem installations_match_primitive_calls
    (K : Kernel) (G : Guile) (lp : String) (argv : List String)
    (environ : String → Option String) (ignored : Int → Bool) :
    sigaction_calls (main K G lp argv (process_start environ ignored)).2.trace =
        4 * installer_calls (main K G lp argv (process_start environ ignored)).2.trace
      ∧ (Script.calls "c-set-cron-signals" (G.behaviour "(main)") = false →
          sigaction_calls (main K G lp argv (process_start environ ignored)).2.trace = 0
            ∧ installer_calls (main K G lp argv (process_start environ ignored)).2.trace = 0) := by
  have hb := main_balanced K G lp argv (process_start environ ignored)
  have h0 : sigaction_calls (process_start environ ignored).trace = 0 := rfl
  have h1 : installer_calls (process_start environ ignored).trace = 0 := rfl
  unfold Balanced at hb
  rw [h0, h1] at hb
  refine ⟨by omega, fun hS => ?_⟩
  have ht : ∀ s, ((process_start environ ignored).sigtable s).sa_handler ≠
      Handler.react_to_terminal_signal := by
    intro s
    simp only [process_start]
    split <;> simp
  obtain ⟨_, h2, _⟩ :=
    main_without_installer K G lp argv (process_start environ ignored) hS rfl ht
  have hi : installer_calls (main K G lp argv (process_start environ ignored)).2.trace = 0 := by
    unfold installer_calls
    rw [List.countP_eq_zero]
    intro e he
    have := h2 e he
    simp only [process_start, List.not_mem_nil, false_or] at this
    rcases this with h | h | h | h | h | h <;> subst h <;> simp
  exact ⟨by omega, hi⟩

/-- C7 as stated fails: a run whose embedded code never calls the primitive
has no installation, and a run whose embedded code calls it twice has two
(eight `sigaction` calls). -/
theorem installation_count_is_not_always_one :
    installer_calls (main linux guile_idle "/usr/share/mcron" ["mcron"] fresh).2.trace = 0
      ∧ sigaction_calls (main linux guile_idle "/usr/share/mcron" ["mcron"] fresh).2.trace = 0
      ∧ installer_calls
          (main linux guile_installing_twice "/usr/share/mcron" ["mcron"] fresh).2.trace = 2
      ∧ sigaction_calls
          (main linux guile_installing_twice "/usr/share/mcron" ["mcron"] fresh).2.trace = 8 := by
  refine ⟨?_, ?_, ?_, ?_⟩ <;>
    simp [main_eq, inner_main_eq, guile_idle, guile_installing_twice, Script.run, call_gsubr,
      world_at_entry, world_at_boot, setenv, fresh, process_start, Gsubr.apply_eq,
      set_cron_signals_eq, Ctl.void, installer_calls, sigaction_calls, Event.is_sigaction,
      List.countP_cons, List.countP_append]

/-- C9, as the code has it: in every state with the handler installed, a
watched signal runs the handler, which has no `catch`; whatever the cleanup
evaluation does, the handler ends in `exit (1)` exactly when that evaluation
returns (with any value, also one that reports a failure), and when the
evaluation raises, the error leaves the handler by the non-local exit and
`exit (1)` is not called by it. -/
theorem exit_1_follows_a_returning_cleanup
    (K : Kernel) (w : World) (hw : installed w = true)
    (s : Int) (hs : s ∈ watched_signals) (cb : Script) :
    (∀ v w1,
        Script.run K cb { w with
          trace := w.trace ++ [Event.scm_c_eval_string "(delete-run-file)"] } = (Ctl.ret v, w1) →
        deliver K (eval_as (Script.run K cb)) s w =
          (Ctl.exit 1, { w1 with trace := w1.trace ++ [Event.exit 1] }))
      ∧ (∀ w1,
        Script.run K cb { w with
          trace := w.trace ++ [Event.scm_c_eval_string "(delete-run-file)"] } = (Ctl.throw, w1) →
        deliver K (eval_as (Script.run K cb)) s w = (Ctl.throw, w1)) := by
  have hh := (installed_iff w).mp hw s hs
  constructor
  · intro v w1 h
    unfold deliver
    rw [hh]
    simp only [react_to_terminal_signal_eq, eval_as, bind_apply, log_apply, h]
  · intro w1 h
    unfold deliver
    rw [hh]
    simp only [react_to_terminal_signal_eq, eval_as, bind_apply, log_apply, h]

/-- C9 at SIGTERM in a fresh process with the handler installed: a cleanup
that returns `#f` is followed by `exit (1)`, a cleanup that raises leaves
the handler with the error and no exit. -/
theorem exit_1_follows_a_returning_cleanup_witness :
    installed (set_cron_signals linux fresh).2 = true
      ∧ SIGTERM ∈ watched_signals
      ∧ deliver linux (eval_as (Script.run linux (Script.ret (SCM.bool false)))) SIGTERM
          (set_cron_signals linux fresh).2 =
          (Ctl.exit 1, { (set_cron_signals linux fresh).2 with
            trace := ((set_cron_signals linux fresh).2.trace ++
              [Event.scm_c_eval_string "(delete-run-file)"]) ++ [Event.exit 1] })
      ∧ deliver linux (eval_as (Script.run linux Script.raise)) SIGTERM
          (set_cron_signals linux fresh).2 =
          (Ctl.throw, { (set_cron_signals linux fresh).2 with
            trace := (set_cron_signals linux fresh).2.trace ++
              [Event.scm_c_eval_string "(delete-run-file)"] }) := by
  have hi : installed (set_cron_signals linux fresh).2 = true := by
    simp [installed, watched_signals, set_cron_signals_eq, linux, cron_action,
      SIGTERM, SIGINT, SIGQUIT, SIGHUP, SIGKILL, SIGSTOP, NSIG]
  exact ⟨hi, by decide,
   (exit_1_follows_a_returning_cleanup linux _ hi SIGTERM (by decide)
      (Script.ret (SCM.bool false))).1 _ _ rfl,
   (exit_1_follows_a_returning_cleanup linux _ hi SIGTERM (by decide) Script.raise).2 _ rfl⟩

/-- C9 as stated fails: with the handler installed, SIGTERM arrives while
embedded code runs inside a `catch`, and the cleanup evaluation raises; the
handler is entered and the cleanup evaluated, but `exit (1)` is never
called: the error is caught, `(main)` returns and the process exits with
status 0.  At the handler itself, the delivery ends in the error, not in an
exit. -/
theorem raising_cleanup_skips_exit_1 :
    (main linux guile_catching "/usr/share/mcron" ["mcron"] fresh).1 = Ctl.exit 0
      ∧ Event.scm_c_eval_string "(delete-run-file)" ∈
          (main linux guile_catching "/usr/share/mcron" ["mcron"] fresh).2.trace
      ∧ Event.exit 1 ∉ (main linux guile_catching "/usr/share/mcron" ["mcron"] fresh).2.trace
      ∧ (deliver linux (eval_as (Script.run linux Script.raise)) SIGTERM
          (set_cron_signals linux fresh).2).1 = Ctl.throw := by
  refine ⟨?_, ?_, ?_, ?_⟩ <;>
    simp [main_eq, inner_main_eq, guile_catching, Script.run, call_gsubr, deliver,
      world_at_entry, world_at_boot, setenv, fresh, process_start, Gsubr.apply_eq,
      set_cron_signals_eq, Ctl.void, react_to_terminal_signal_eq, eval_as, watched_signals,
      linux, SIGTERM, SIGINT, SIGQUIT, SIGHUP, SIGKILL, SIGSTOP, NSIG, cron_action]

/-- C10, as the code has it: in the transition system of the Signal
Coordinator (steps: the installer call, delivery of a watched signal with any
cleanup behaviour), no process reached from an `Installed` one is
`Uninstalled`: it is `Installed`, or `Terminating`, or has ended by an error
or by a signal.  The installer keeps the process `Installed`; a watched signal
whose cleanup evaluation returns takes it to `Terminating` by `exit (1)`, and a
`Terminating` process has no successor.  `react_to_terminal_signal` never
returns to its caller, but it ends in `exit` only when the cleanup evaluation
returns: when that raises, the error leaves the handler, and a process that
catches it goes on running, still `Installed`. -/
theorem installed_is_never_uninstalled (K : Kernel) (p : Proc)
    (hp : phase p = some Phase.Installed) :
    (∀ ls q, steps K ls p = some q → phase q ≠ some Phase.Uninstalled)
      ∧ (∀ ls q, steps K ls p = some q →
          phase q = some Phase.Installed ∨ phase q = some Phase.Terminating
            ∨ q.1 = Ctl.throw ∨ ∃ g, q.1 = Ctl.killed g)
      ∧ (∃ q, step K Step.install p = some q ∧ phase q = some Phase.Installed)
      ∧ (∀ s cb caught v w1,
          Script.run K cb { p.2 with
            trace := p.2.trace ++ [Event.scm_c_eval_string "(delete-run-file)"] }
              = (Ctl.ret v, w1) →
          step K (Step.deliver s cb caught) p =
              some (Ctl.exit 1, { w1 with trace := w1.trace ++ [Event.exit 1] })
            ∧ phase (Ctl.exit 1, { w1 with trace := w1.trace ++ [Event.exit 1] }) =
                some Phase.Terminating)
      ∧ (∀ s cb w1,
          Script.run K cb { p.2 with
            trace := p.2.trace ++ [Event.scm_c_eval_string "(delete-run-file)"] }
              = (Ctl.throw, w1) →
          step K (Step.deliver s cb true) p = some (Ctl.ret (), w1)
            ∧ phase (Ctl.ret (), w1) = some Phase.Installed
            ∧ step K (Step.deliver s cb false) p = some (Ctl.throw, w1))
      ∧ (∀ q, phase q = some Phase.Terminating → ∀ l, step K l q = none)
      ∧ (∀ (ev : String → M SCM) (sig : Int) (w : World) (a : Unit),
          (react_to_terminal_signal ev sig w).1 ≠ Ctl.ret a) := by
  have hne : phase p ≠ some Phase.Uninstalled := by rw [hp]; simp
  have h1 := fun ls q => steps_never_uninstall K ls p q hne
  obtain ⟨c, w⟩ := p
  obtain ⟨⟨a, rfl⟩, hi⟩ := installed_of_phase c w hp
  refine ⟨h1, ?_, ?_, ?_, ?_, fun q hq l => step_from_terminating K l q hq, ?_⟩
  · intro ls q hq
    have hq2 := h1 ls q hq
    obtain ⟨cq, wq⟩ := q
    cases cq with
    | ret b =>
      left
      by_cases h : installed wq = true
      · simp [phase, h]
      · exact absurd (by simp [phase, h]) hq2
    | exit n => right; left; rfl
    | throw => right; right; left; rfl
    | killed g => right; right; right; exact ⟨g, rfl⟩
  · refine ⟨_, rfl, ?_⟩
    have h2 := installed_after_set_cron_signals K w hi
    have h3 : (set_cron_signals K w).1 = Ctl.ret SCM_BOOL_T := by rw [set_cron_signals_eq]
    simp [phase, h2, h3, Ctl.void]
  · intro s cb caught v w1 h
    simp only at h
    rw [step_deliver_eq K a w hi, h]
    exact ⟨rfl, rfl⟩
  · intro s cb w1 h
    simp only at h
    have hi1 : installed w1 = true := by
      have := Script.run_installed K cb
        { w with trace := w.trace ++ [Event.scm_c_eval_string "(delete-run-file)"] } hi
      rw [h] at this
      exact this
    rw [step_deliver_eq K a w hi, step_deliver_eq K a w hi, h]
    refine ⟨rfl, ?_, rfl⟩
    simp [phase, hi1]
  · intro ev sig w a
    rw [react_to_terminal_signal_eq]
    rcases ev "(delete-run-file)" w with ⟨c, w1⟩
    cases c <;> simp

/-- C10 from the process in which a fresh process has just installed the
handler: it is `Installed`, stays so under a second installer call, and SIGTERM
with a cleanup that returns then takes it to `Terminating`, from where no step
leads on. -/
theorem installed_is_never_uninstalled_witness :
    phase (Ctl.ret (), (set_cron_signals linux fresh).2) = some Phase.Installed
      ∧ (∃ q, steps linux
            [Step.install,
             Step.deliver WatchedSignal.TERM (Script.ret SCM.unspecified) false]
            (Ctl.ret (), (set_cron_signals linux fresh).2) = some q
          ∧ phase q = some Phase.Terminating
          ∧ steps linux
              [Step.install,
               Step.deliver WatchedSignal.TERM (Script.ret SCM.unspecified) false,
               Step.install] (Ctl.ret (), (set_cron_signals linux fresh).2) = none)
      ∧ ∀ ls q, steps linux ls (Ctl.ret (), (set_cron_signals linux fresh).2) = some q →
          phase q ≠ some Phase.Uninstalled := by
  have hp : phase (Ctl.ret (), (set_cron_signals linux fresh).2) = some Phase.Installed := by
    simp [phase, installed, watched_signals, set_cron_signals_eq, linux, cron_action,
      SIGTERM, SIGINT, SIGQUIT, SIGHUP, SIGKILL, SIGSTOP, NSIG]
  have h := installed_is_never_uninstalled linux (Ctl.ret (), (set_cron_signals linux fresh).2) hp
  refine ⟨hp, ?_, h.1⟩
  simp [steps, step, interrupted, Script.run, phase, deliver, installed, watched_signals,
    set_cron_signals_eq, linux, cron_action, Ctl.void, react_to_terminal_signal_eq, eval_as,
    WatchedSignal.signo, SIGTERM, SIGINT, SIGQUIT, SIGHUP, SIGKILL, SIGSTOP, NSIG]

/-- C10 as stated fails: from the `Installed` process a fresh process is in
after `set_cron_signals`, SIGTERM arrives inside a `catch` and the cleanup
evaluation raises.  The handler was entered and the cleanup evaluated, yet no
`exit` followed: the process is running and `Installed` again, and takes a
further step.  Without the `catch` the process ends by the error, which is
neither `Installed` nor `Terminating`. -/
theorem handler_entered_is_not_terminal :
    phase (Ctl.ret (), (set_cron_signals linux fresh).2) = some Phase.Installed
      ∧ (∃ q, steps linux [Step.deliver WatchedSignal.TERM Script.raise true, Step.install]
            (Ctl.ret (), (set_cron_signals linux fresh).2) = some q
          ∧ q.1 = Ctl.ret ()
          ∧ phase q = some Phase.Installed
          ∧ Event.scm_c_eval_string "(delete-run-file)" ∈ q.2.trace
          ∧ Event.exit 1 ∉ q.2.trace)
      ∧ (∃ q, steps linux [Step.deliver WatchedSignal.TERM Script.raise false]
            (Ctl.ret (), (set_cron_signals linux fresh).2) = some q
          ∧ q.1 = Ctl.throw
          ∧ phase q ≠ some Phase.Installed
          ∧ phase q ≠ some Phase.Terminating)
      ∧ (react_to_terminal_signal (eval_as (Script.run linux Script.raise)) SIGTERM
          (set_cron_signals linux fresh).2).1 = Ctl.throw := by
  refine ⟨?_, ?_, ?_, ?_⟩ <;>
    simp [steps, step, interrupted, Script.run, phase, deliver, installed, watched_signals,
      set_cron_signals_eq, linux, cron_action, Ctl.void, react_to_terminal_signal_eq, eval_as,
      WatchedSignal.signo, fresh, process_start,
      SIGTERM, SIGINT, SIGQUIT, SIGHUP, SIGKILL, SIGSTOP, NSIG]

end Mcron
